import Mathlib

/-!
MazeGame: the game logic of `MazeGame.cpp`.

A shallow embedding of the game-logic functions of `src/MazeGame.cpp`
(`loadMap`, `checkCollision`, `checkKeyPickup`, `checkWin`, `Camera::rotate`
and the movement part of the frame loop in `main`).

Modelling conventions.

* `float` values are exact rationals (`ℚ`); the literals `0.3f`, `0.1f`, `2.0f`,
  `0.5f`, `3.0f`, `89.0f` are `3/10`, `1/10`, `2`, `1/2`, `3`, `89`.  Rounding
  error, NaN and infinities are outside the model.
* The C++ conversion `(int)f` truncates toward zero; it is `toInt`.  Values outside
  the range of `int` (undefined behaviour in C++) are not distinguished.
* `std::set<char>` is `Finset Char`; `vector<vector<char>>` is `List (List Char)`.
* `cos`, `sin` and `glm::normalize` are not rational valued: the functions that call
  them take them as a parameter (`Glm`).
-/

namespace MazeGame

/-! ## Data model -/

/-- Counterpart of `glm::vec3`, with rational components. -/
structure Vec3 where
  x : ℚ
  y : ℚ
  z : ℚ
deriving DecidableEq

/-- Component-wise sum, `glm::vec3 + glm::vec3`. -/
def Vec3.add (a b : Vec3) : Vec3 := ⟨a.x + b.x, a.y + b.y, a.z + b.z⟩

/-- Component-wise difference, `glm::vec3 - glm::vec3`. -/
def Vec3.sub (a b : Vec3) : Vec3 := ⟨a.x - b.x, a.y - b.y, a.z - b.z⟩

/-- Product with a scalar, `glm::vec3 * float`. -/
def Vec3.scale (a : Vec3) (k : ℚ) : Vec3 := ⟨a.x * k, a.y * k, a.z * k⟩

/-- Cross product, `glm::cross`. -/
def Vec3.cross (a b : Vec3) : Vec3 :=
  ⟨a.y * b.z - b.y * a.z, a.z * b.x - b.z * a.x, a.x * b.y - b.x * a.y⟩

/-- Counterpart of `struct Map`.  `startPos` and `goalPos` are `none` until `loadMap`
assigns them (the C++ fields are left unassigned when no `S` / `G` is read). -/
structure Map where
  width : Int
  height : Int
  grid : List (List Char)
  startPos : Option Vec3
  goalPos : Option Vec3
deriving DecidableEq

/-- The element `map.grid[gridZ][gridX]`.  The source only reads it after the index
check against `width` and `height`; an index outside the stored vectors (undefined
behaviour in C++) reads the NUL character here. -/
def Map.cell (map : Map) (gridZ gridX : Int) : Char :=
  (map.grid.getD gridZ.toNat []).getD gridX.toNat (Char.ofNat 0)

/-- The assignment `map.grid[gridZ][gridX] = c`. -/
def Map.setCell (map : Map) (gridZ gridX : Int) (c : Char) : Map :=
  { map with
    grid := map.grid.set gridZ.toNat ((map.grid.getD gridZ.toNat []).set gridX.toNat c) }

/-- The stored vectors have the sizes `loadMap` gives them: `height` rows of `width`
cells. -/
def Map.WF (map : Map) : Prop :=
  0 ≤ map.width ∧ 0 ≤ map.height ∧ map.grid.length = map.height.toNat ∧
    ∀ row ∈ map.grid, row.length = map.width.toNat

/-! ## Collision, pickup and win test -/

/-- The conversion `(int)f` of C++: truncation toward zero. -/
def toInt (f : ℚ) : Int := if 0 ≤ f then ⌊f⌋ else -⌊-f⌋

/-- The index computation `(int)(p / 2.0f + 0.5f)` used for both axes. -/
def gridIndex (p : ℚ) : Int := toInt (p / 2 + 1 / 2)

/-- The value of `cell - 'A' + 'a'` converted back to `char`. -/
def requiredKey (cell : Char) : Char := Char.ofNat (cell.toNat - 'A'.toNat + 'a'.toNat)

/-- The constant `radius = 0.3f`. -/
def radius : ℚ := 3 / 10

/-- The array `offsets` of `checkCollision`. -/
def offsets : List Vec3 :=
  [⟨radius, 0, radius⟩, ⟨-radius, 0, radius⟩, ⟨radius, 0, -radius⟩, ⟨-radius, 0, -radius⟩]

/-- The `for` loop of `checkCollision` over the remaining corner offsets; it returns
`true` at the first corner that is out of the grid, on a wall or on a locked door, and
`false` when the offsets are exhausted. -/
def checkCorners (map : Map) (pos : Vec3) (keys : Finset Char) : List Vec3 → Bool
  | [] => false
  | off :: rest =>
    let checkPos := pos.add off
    let checkX := toInt (checkPos.x / 2 + 1 / 2)
    let checkZ := toInt (checkPos.z / 2 + 1 / 2)
    if checkX < 0 ∨ checkX ≥ map.width ∨ checkZ < 0 ∨ checkZ ≥ map.height then true
    else
      let checkCell := map.cell checkZ checkX
      if checkCell = 'W' then true
      else if 'A' ≤ checkCell ∧ checkCell ≤ 'E' ∧ requiredKey checkCell ∉ keys then true
      else checkCorners map pos keys rest

/-- The function `checkCollision(map, pos, keys)`. -/
def checkCollision (map : Map) (pos : Vec3) (keys : Finset Char) : Bool :=
  let gridX := toInt (pos.x / 2 + 1 / 2)
  let gridZ := toInt (pos.z / 2 + 1 / 2)
  if gridX < 0 ∨ gridX ≥ map.width ∨ gridZ < 0 ∨ gridZ ≥ map.height then true
  else
    let cell := map.cell gridZ gridX
    if cell = 'W' then true
    else if 'A' ≤ cell ∧ cell ≤ 'E' ∧ requiredKey cell ∉ keys then true
    else checkCorners map pos keys offsets

/-- The function `checkKeyPickup(map, pos, keys)`; the updated map and key set are
returned as a pair. -/
def checkKeyPickup (map : Map) (pos : Vec3) (keys : Finset Char) : Map × Finset Char :=
  let gridX := toInt (pos.x / 2 + 1 / 2)
  let gridZ := toInt (pos.z / 2 + 1 / 2)
  if gridX < 0 ∨ gridX ≥ map.width ∨ gridZ < 0 ∨ gridZ ≥ map.height then (map, keys)
  else
    let cell := map.cell gridZ gridX
    if 'a' ≤ cell ∧ cell ≤ 'e' then (map.setCell gridZ gridX '0', insert cell keys)
    else (map, keys)

/-- The function `checkWin(map, pos)`. -/
def checkWin (map : Map) (pos : Vec3) : Bool :=
  let gridX := toInt (pos.x / 2 + 1 / 2)
  let gridZ := toInt (pos.z / 2 + 1 / 2)
  if gridX < 0 ∨ gridX ≥ map.width ∨ gridZ < 0 ∨ gridZ ≥ map.height then false
  else decide (map.cell gridZ gridX = 'G')

/-! ## Camera and frame loop -/

/-- The functions of `<cmath>` and GLM used by the source whose values are not rational:
`cosDeg d` is `cos(glm::radians(d))`, `sinDeg d` is `sin(glm::radians(d))` and
`normalize` is `glm::normalize`.  The camera and the frame loop take them as a
parameter. -/
structure Glm where
  cosDeg : ℚ → ℚ
  sinDeg : ℚ → ℚ
  normalize : Vec3 → Vec3

/-- Counterpart of `struct Camera`. -/
structure Camera where
  position : Vec3
  front : Vec3
  up : Vec3
  yaw : ℚ
  pitch : ℚ
deriving DecidableEq

/-- The constructor `Camera(glm::vec3 pos)`. -/
def Camera.ctor (pos : Vec3) : Camera :=
  { position := pos, front := ⟨0, 0, -1⟩, up := ⟨0, 1, 0⟩, yaw := -90, pitch := 0 }

/-- The method `Camera::updateVectors`. -/
def Camera.updateVectors (L : Glm) (c : Camera) : Camera :=
  { c with
    front := L.normalize
      ⟨L.cosDeg c.yaw * L.cosDeg c.pitch, L.sinDeg c.pitch, L.sinDeg c.yaw * L.cosDeg c.pitch⟩ }

/-- The method `Camera::rotate(deltaYaw, deltaPitch)`. -/
def Camera.rotate (L : Glm) (c : Camera) (deltaYaw deltaPitch : ℚ) : Camera :=
  let yaw := c.yaw + deltaYaw
  let pitch := c.pitch + deltaPitch
  let pitch := if pitch > 89 then 89 else pitch
  let pitch := if pitch < -89 then -89 else pitch
  Camera.updateVectors L { c with yaw := yaw, pitch := pitch }

/-- The SDL events the loop of `main` distinguishes. -/
inductive Event where
  | sdlQuit
  | escapeUp
  | mouseMotion (xrel yrel : Int)
  | ignored
deriving DecidableEq

/-- What one iteration of the loop reads from outside: the measured `deltaTime`, the
pending events, and the state of the four movement keys. -/
structure FrameInput where
  deltaTime : ℚ
  events : List Event
  keyW : Bool
  keyS : Bool
  keyA : Bool
  keyD : Bool

/-- The variables of `main` the game logic works on. -/
structure Game where
  map : Map
  camera : Camera
  collectedKeys : Finset Char
  quit : Bool
deriving DecidableEq

/-- The state `main` enters its loop with: a camera constructed at the start position,
no key, `quit = false`. -/
def Game.start (map : Map) (startPos : Vec3) : Game :=
  { map := map, camera := Camera.ctor startPos, collectedKeys := ∅, quit := false }

/-- The body of the `SDL_PollEvent` loop for one event (`sensitivity = 0.1f`). -/
def handleEvent (L : Glm) (g : Game) : Event → Game
  | Event.sdlQuit => { g with quit := true }
  | Event.escapeUp => { g with quit := true }
  | Event.mouseMotion xrel yrel =>
    { g with camera := g.camera.rotate L ((xrel : ℚ) * (1 / 10)) ((-yrel : ℚ) * (1 / 10)) }
  | Event.ignored => g

/-- The `while (SDL_PollEvent(&windowEvent))` loop over the pending events. -/
def pollEvents (L : Glm) (g : Game) (events : List Event) : Game :=
  events.foldl (handleEvent L) g

/-- The candidate position `newPos` of an iteration (`moveSpeed = 3.0f * deltaTime`,
`forward` the normalized horizontal part of `camera.front`, `right` the normalized
cross product of `forward` and `camera.up`). -/
def candidate (L : Glm) (camera : Camera) (inp : FrameInput) : Vec3 :=
  let moveSpeed := 3 * inp.deltaTime
  let forward := L.normalize ⟨camera.front.x, 0, camera.front.z⟩
  let right := L.normalize (forward.cross camera.up)
  let newPos := camera.position
  let newPos := if inp.keyW then newPos.add (forward.scale moveSpeed) else newPos
  let newPos := if inp.keyS then newPos.sub (forward.scale moveSpeed) else newPos
  let newPos := if inp.keyA then newPos.sub (right.scale moveSpeed) else newPos
  let newPos := if inp.keyD then newPos.add (right.scale moveSpeed) else newPos
  newPos

/-- The body of `if (!checkCollision(map, newPos, collectedKeys))`: the position is
committed, then `checkKeyPickup` and `checkWin` run on the committed position. -/
def commit (g : Game) (newPos : Vec3) : Game :=
  let picked := checkKeyPickup g.map newPos g.collectedKeys
  let g := { g with
    camera := { g.camera with position := newPos }
    map := picked.1
    collectedKeys := picked.2 }
  if checkWin g.map g.camera.position then { g with quit := true } else g

/-- One iteration of the `while (!quit)` loop of `main`, without the rendering: the
events, the candidate position, `checkCollision`, and on a free candidate the commit. -/
def frame (L : Glm) (g : Game) (inp : FrameInput) : Game :=
  let g := pollEvents L g inp.events
  let newPos := candidate L g.camera inp
  if checkCollision g.map newPos g.collectedKeys then g else commit g newPos

/-- The loop `while (!quit)` run on a list of frame inputs: it stops at the first state
with `quit` set, or when the inputs are used up. -/
def run (L : Glm) (g : Game) : List FrameInput → Game
  | [] => g
  | inp :: rest => if g.quit then g else run L (frame L g inp) rest

/-- Replacement for the library functions on the axis directions: `normalize` divides
by the sum of the absolute components, which is the length of a vector parallel to an
axis, and `cosDeg`, `sinDeg` are exact at `0` and `±90`.  It is used to run the model
on concrete inputs with the camera looking along an axis. -/
def axisGlm : Glm where
  cosDeg d := if d = 0 then 1 else 0
  sinDeg d := if d = 90 then 1 else if d = -90 then -1 else 0
  normalize v := v.scale (|v.x| + |v.y| + |v.z|)⁻¹

/-- A frame in which only `W` is held and no event is pending. -/
def forwardFrame (deltaTime : ℚ) : FrameInput :=
  { deltaTime := deltaTime, events := [], keyW := true, keyS := false, keyA := false,
    keyD := false }

/-- The map of scenario S1, as `loadMap` builds it from the text `3 1 / SG.`. -/
def s1Map : Map := ⟨3, 1, [['S', 'G', '.']], some ⟨0, 1, 0⟩, some ⟨2, 1, 0⟩⟩

/-- A 3×1 map with a wall between the start tile and a floor tile: `SW0`. -/
def wallMap : Map := ⟨3, 1, [['S', 'W', '0']], some ⟨0, 1, 0⟩, none⟩

/-- The loop state at the start position `(0, 1, 0)` of `map` with the camera looking
along `+X` (`front = (1, 0, 0)`, which `updateVectors` gives for yaw 0 and pitch 0). -/
def facingX (map : Map) : Game :=
  { map := map
    camera := { position := ⟨0, 1, 0⟩, front := ⟨1, 0, 0⟩, up := ⟨0, 1, 0⟩, yaw := 0, pitch := 0 }
    collectedKeys := ∅
    quit := false }

/-- A frame input of scenario S4: only `W` is held and no mouse motion is pending. -/
def FrameInput.forwardOnly (inp : FrameInput) : Prop :=
  inp.keyW = true ∧ inp.keyS = false ∧ inp.keyA = false ∧ inp.keyD = false ∧
    ∀ e ∈ inp.events, ∀ xrel yrel, e ≠ Event.mouseMotion xrel yrel

/-- The loop invariant of scenario S4: the camera is on the line `z = 0` short of
`x = 0.7`, it looks along `+X`, and tile `(x = 1, z = 0)` is a wall. -/
def Game.beforeWall (g : Game) : Prop :=
  g.camera.position.z = 0 ∧ g.camera.position.x < 7 / 10 ∧ g.camera.front = ⟨1, 0, 0⟩ ∧
    g.map.cell 0 1 = 'W'

/-! ## Map loader -/

/-- The state of the `ifstream` that matters to `loadMap`: the characters not yet read,
and whether the stream is still `good()` (neither `eofbit` nor `failbit` is set). -/
structure IStream where
  rest : List Char
  good : Bool
deriving DecidableEq

/-- The whitespace skipped by formatted extraction (`isspace` in the C locale). -/
def isSpace (c : Char) : Bool :=
  c = ' ' || c = '\t' || c = '\n' || c = '\r' || c = Char.ofNat 11 || c = Char.ofNat 12

/-- The decimal value of a run of digits. -/
def digitsValue (ds : List Char) : Nat :=
  ds.foldl (fun acc c => acc * 10 + (c.toNat - '0'.toNat)) 0

/-- The extraction `file >> n` of an `int`: leading whitespace is skipped, an optional
sign and a non-empty run of decimal digits are read.  The result is `none` when the
extraction fails (stream not good, no digit, or value outside the range of `int`);
reaching the end of the text while reading the digits sets `eofbit`, so the stream is
no longer good afterwards. -/
def readInt (s : IStream) : Option (Int × IStream) :=
  if s.good = false then none
  else
    let r := s.rest.dropWhile isSpace
    let signed : Bool × List Char :=
      match r with
      | '-' :: t => (true, t)
      | '+' :: t => (false, t)
      | _ => (false, r)
    let ds := signed.2.takeWhile Char.isDigit
    let r := signed.2.dropWhile Char.isDigit
    let v : Int := if signed.1 then -(digitsValue ds : Int) else (digitsValue ds : Int)
    if ds = [] then none
    else if v < -2147483648 ∨ 2147483647 < v then none
    else some (v, { rest := r, good := !r.isEmpty })

/-- The call `getline(file, line)`: on a stream that is not good nothing is extracted
and `line` keeps its content; otherwise `line` receives the characters up to the next
newline, which is consumed, or up to the end of the text, which ends the good state. -/
def getline (s : IStream) (line : List Char) : List Char × IStream :=
  if s.good = false then (line, s)
  else
    match s.rest.dropWhile (fun c => c != '\n') with
    | [] => (s.rest.takeWhile (fun c => c != '\n'), { rest := [], good := false })
    | _ :: r => (s.rest.takeWhile (fun c => c != '\n'), { rest := r, good := true })

/-- The variables the inner loop of `loadMap` writes: the row `map.grid[y]` and the two
positions. -/
structure RowState where
  row : List Char
  startPos : Option Vec3
  goalPos : Option Vec3

/-- The body of the inner loop `for (x ...)` of `loadMap` for the column `x`. -/
def loadCell (line : List Char) (y : Nat) (st : RowState) (x : Nat) : RowState :=
  if x < line.length then
    let c := line.getD x (Char.ofNat 0)
    { row := st.row.set x c
      startPos := if c = 'S' then some ⟨(x : ℚ) * 2, 1, (y : ℚ) * 2⟩ else st.startPos
      goalPos := if c = 'G' then some ⟨(x : ℚ) * 2, 1, (y : ℚ) * 2⟩ else st.goalPos }
  else st

/-- The statement `map.grid[y].resize(map.width)`, which fills the row with NUL
characters, followed by the inner loop over the columns. -/
def loadRow (width : Nat) (line : List Char) (y : Nat) (startPos goalPos : Option Vec3) :
    RowState :=
  (List.range width).foldl (loadCell line y)
    { row := List.replicate width (Char.ofNat 0), startPos := startPos, goalPos := goalPos }

/-- The variables the outer loop of `loadMap` carries from row to row: the stream, the
string `line`, the rows filled so far and the two positions. -/
structure LoadState where
  file : IStream
  line : List Char
  rows : List (List Char)
  startPos : Option Vec3
  goalPos : Option Vec3

/-- The body of the outer loop `for (y ...)` of `loadMap`. -/
def loadLine (width : Nat) (st : LoadState) (y : Nat) : LoadState :=
  let read := getline st.file st.line
  let filled := loadRow width read.1 y st.startPos st.goalPos
  { file := read.2
    line := read.1
    rows := st.rows ++ [filled.row]
    startPos := filled.startPos
    goalPos := filled.goalPos }

/-- What a call of `loadMap` comes to.  `badHeader`: the extraction of `width` or
`height` failed; the source does not test it and goes on with dimensions it never
assigned.  `lengthError`: a `resize` with a negative size throws `std::length_error`,
which nothing catches. -/
inductive LoadResult where
  | loaded (map : Map)
  | badHeader
  | lengthError
deriving DecidableEq

/-- The function `loadMap`, on the text of the file. -/
def loadMap (text : String) : LoadResult :=
  match readInt { rest := text.toList, good := true } with
  | none => LoadResult.badHeader
  | some (width, s1) =>
    match readInt s1 with
    | none => LoadResult.badHeader
    | some (height, s2) =>
      if height < 0 then LoadResult.lengthError
      else if 0 < height ∧ width < 0 then LoadResult.lengthError
      else
        let first := getline s2 []
        let st := (List.range height.toNat).foldl (loadLine width.toNat)
          { file := first.2, line := first.1, rows := [], startPos := none, goalPos := none }
        LoadResult.loaded
          { width := width, height := height, grid := st.rows, startPos := st.startPos,
            goalPos := st.goalPos }

/-- The start of `main` up to the loop: `loadMap`, then the camera is constructed at
`map.startPos`.  `unassigned` is the content of a `glm::vec3` that was never assigned,
read when the map has no `S`. -/
def startup (unassigned : Vec3) (text : String) : Option Game :=
  match loadMap text with
  | LoadResult.loaded map => some (Game.start map (map.startPos.getD unassigned))
  | _ => none

/-! ## The vocabulary of the specification -/

/-- A cell is blocking when its indices are outside the grid, its tile is `W`, or its
tile is a door `A`..`E` whose lower-case key is not held. -/
def blockingCell (map : Map) (keys : Finset Char) (gx gz : Int) : Prop :=
  ¬ (0 ≤ gx ∧ gx < map.width ∧ 0 ≤ gz ∧ gz < map.height) ∨
    map.cell gz gx = 'W' ∨
    ('A' ≤ map.cell gz gx ∧ map.cell gz gx ≤ 'E' ∧ requiredKey (map.cell gz gx) ∉ keys)

instance (map : Map) (keys : Finset Char) (gx gz : Int) :
    Decidable (blockingCell map keys gx gz) := by
  unfold blockingCell; infer_instance

/-- The five probe points of a position: the position and its four corner offsets. -/
def probes (pos : Vec3) : List Vec3 := pos :: offsets.map pos.add

/-- The grid index the specification assigns to a coordinate: `⌊p/2 + 0.5⌋`. -/
def floorIndex (p : ℚ) : Int := ⌊p / 2 + 1 / 2⌋

/-- The collision oracle as the specification words it: some probe point lies, by the
floor rounding, in a blocking cell. -/
def specBlocked (map : Map) (pos : Vec3) (keys : Finset Char) : Prop :=
  ∃ p ∈ probes pos, blockingCell map keys (floorIndex p.x) (floorIndex p.z)

instance (map : Map) (pos : Vec3) (keys : Finset Char) :
    Decidable (specBlocked map pos keys) := by
  unfold specBlocked; infer_instance

/-- The same test with the index computation of the source (`gridIndex`). -/
def probeBlocked (map : Map) (keys : Finset Char) (p : Vec3) : Prop :=
  blockingCell map keys (gridIndex p.x) (gridIndex p.z)

instance (map : Map) (keys : Finset Char) (p : Vec3) :
    Decidable (probeBlocked map keys p) := by
  unfold probeBlocked; infer_instance

/-- The row of a map as the specification describes it: the characters of the line at
the columns below `width`, and the filler character `fill` at the columns from the
length of the line on. -/
def specRow (fill : Char) (width : Nat) (line : List Char) : List Char :=
  (List.range width).map (fun x => if x < line.length then line.getD x fill else fill)

/-- The text `body` after the header line consists of the row lines `lines`: each line
is free of newlines and is ended by a newline, except that the last one may be ended by
the end of the text. -/
def RowLines : List Char → List (List Char) → Prop
  | _, [] => True
  | body, l :: ls =>
    '\n' ∉ l ∧ ((body = l ∧ ls = []) ∨ ∃ r, body = l ++ '\n' :: r ∧ RowLines r ls)

/-- A 1×1 map with a single floor tile `0`. -/
def floorMap : Map := ⟨1, 1, [['0']], none, none⟩

/-- A probe point is outside the world rectangle `[0, 2·width) × [0, 2·height)` named by
the specification. -/
def outsideWorld (map : Map) (p : Vec3) : Prop :=
  ¬ (0 ≤ p.x ∧ p.x < 2 * (map.width : ℚ)) ∨ ¬ (0 ≤ p.z ∧ p.z < 2 * (map.height : ℚ))

instance (map : Map) (p : Vec3) : Decidable (outsideWorld map p) := by
  unfold outsideWorld; infer_instance

/-- A 1×1 map holding only the start tile. -/
def startMap : Map := ⟨1, 1, [['S']], some ⟨0, 1, 0⟩, none⟩

/-- A 2×1 map: a floor tile at column 0 and a key `b` at column 1. -/
def floorKeyMap : Map := ⟨2, 1, [['0', 'b']], none, none⟩

/-! ## Held key and mouse look -/

/-- The function `getKeyColor(keyLetter)`. -/
def getKeyColor (keyLetter : Char) : Vec3 :=
  if keyLetter = 'a' ∨ keyLetter = 'A' then ⟨1, 0, 0⟩
  else if keyLetter = 'b' ∨ keyLetter = 'B' then ⟨0, 1, 0⟩
  else if keyLetter = 'c' ∨ keyLetter = 'C' then ⟨0, 1 / 2, 1⟩
  else if keyLetter = 'd' ∨ keyLetter = 'D' then ⟨1, 1, 0⟩
  else if keyLetter = 'e' ∨ keyLetter = 'E' then ⟨1, 0, 1⟩
  else ⟨1, 1, 1⟩

/-- The held key of a frame: `none` when `collectedKeys.empty()`, and otherwise the
value of `char lastKey = *collectedKeys.rbegin()`, the last element of the ordered set,
which is its greatest character. -/
def lastKey (collectedKeys : Finset Char) : Option Char :=
  if h : collectedKeys.Nonempty then some (collectedKeys.max' h) else none

/-- The colour the frame passes to the shader for the held key,
`getKeyColor(lastKey)`. -/
def heldKeyColor (collectedKeys : Finset Char) : Option Vec3 :=
  (lastKey collectedKeys).map getKeyColor

/-- A sequence of `checkKeyPickup` calls as the specification looks at it: the map, the
inventory, and the key most recently collected, which is the key inserted by the last
call that changed the inventory. -/
structure PickupState where
  map : Map
  keys : Finset Char
  recent : Option Char
deriving DecidableEq

/-- One call `checkKeyPickup(map, pos, keys)` in such a sequence; when the call changes
the inventory, the key it inserted (the tile under the centre of `pos`) becomes the
most recent one. -/
def pickupStep (st : PickupState) (pos : Vec3) : PickupState :=
  { map := (checkKeyPickup st.map pos st.keys).1
    keys := (checkKeyPickup st.map pos st.keys).2
    recent :=
      if (checkKeyPickup st.map pos st.keys).2 = st.keys then st.recent
      else some (st.map.cell (gridIndex pos.z) (gridIndex pos.x)) }

/-- A 2×1 map with the key `b` at column 0 and the key `a` at column 1. -/
def keysMap : Map := ⟨2, 1, [['b', 'a']], none, none⟩

/-- The vertical delta `motion.yrel` of an event; `0` for an event that is not a mouse
motion. -/
def Event.yrel : Event → Int
  | Event.mouseMotion _ yrel => yrel
  | _ => 0

/-- The map `loadMap` builds from the text `3 1 / ASa`: the door `A`, the start tile and
the key `a`. -/
def doorKeyMap : Map := ⟨3, 1, [['A', 'S', 'a']], some ⟨2, 1, 0⟩, none⟩

/-- The map `doorKeyMap` once the key `a` has been picked up. -/
def doorMap : Map := ⟨3, 1, [['A', 'S', '0']], some ⟨2, 1, 0⟩, none⟩

/-- The loop state at the start position `(2, 1, 0)` of `doorKeyMap` with the camera
looking along `+X`. -/
def doorStart : Game :=
  { map := doorKeyMap
    camera := { position := ⟨2, 1, 0⟩, front := ⟨1, 0, 0⟩, up := ⟨0, 1, 0⟩, yaw := 0, pitch := 0 }
    collectedKeys := ∅
    quit := false }

/-- A frame in which only `S` is held and no event is pending. -/
def backFrame (deltaTime : ℚ) : FrameInput :=
  { deltaTime := deltaTime, events := [], keyW := false, keyS := true, keyA := false,
    keyD := false }

/-! ## Collision oracle: the probes -/

theorem checkCorners_iff (map : Map) (pos : Vec3) (keys : Finset Char) (offs : List Vec3) :
    checkCorners map pos keys offs = true ↔
      ∃ off ∈ offs, probeBlocked map keys (pos.add off) := by
  induction offs with
  | nil => simp [checkCorners]
  | cons off rest ih =>
    simp only [checkCorners, List.mem_cons, exists_eq_or_imp]
    by_cases hb : probeBlocked map keys (pos.add off)
    · have hb2 := hb
      simp only [probeBlocked, blockingCell, gridIndex] at hb2
      simp only [hb, true_or, iff_true]
      split_ifs with h1 h2 h3
      · rfl
      · rfl
      · rfl
      · exfalso
        rcases hb2 with h | h | h
        · apply h
          simp only [not_or, not_lt, ge_iff_le, not_le] at h1
          exact ⟨h1.1, h1.2.1, h1.2.2.1, h1.2.2.2⟩
        · exact h2 h
        · exact h3 h
    · have hb2 := hb
      simp only [probeBlocked, blockingCell, gridIndex, not_or, not_not] at hb2
      simp only [hb, false_or]
      obtain ⟨⟨h0, h1, h2, h3⟩, hW, hD⟩ := hb2
      rw [if_neg (by omega), if_neg hW, if_neg hD]
      exact ih

theorem checkCollision_iff (map : Map) (pos : Vec3) (keys : Finset Char) :
    checkCollision map pos keys = true ↔ ∃ p ∈ probes pos, probeBlocked map keys p := by
  simp only [probes, List.mem_cons, exists_eq_or_imp, List.mem_map, exists_exists_and_eq_and]
  rw [← checkCorners_iff]
  by_cases hb : probeBlocked map keys pos
  · have hb2 := hb
    simp only [probeBlocked, blockingCell, gridIndex] at hb2
    simp only [hb, true_or, iff_true, checkCollision]
    split_ifs with h1 h2 h3
    · rfl
    · rfl
    · rfl
    · exfalso
      rcases hb2 with h | h | h
      · apply h
        simp only [not_or, not_lt, ge_iff_le, not_le] at h1
        exact ⟨h1.1, h1.2.1, h1.2.2.1, h1.2.2.2⟩
      · exact h2 h
      · exact h3 h
  · have hb2 := hb
    simp only [probeBlocked, blockingCell, gridIndex, not_or, not_not] at hb2
    simp only [hb, false_or, checkCollision]
    obtain ⟨⟨h0, h1, h2, h3⟩, hW, hD⟩ := hb2
    rw [if_neg (by omega), if_neg hW, if_neg hD]

theorem checkCollision_eq_false_iff (map : Map) (pos : Vec3) (keys : Finset Char) :
    checkCollision map pos keys = false ↔ ∀ p ∈ probes pos, ¬ probeBlocked map keys p := by
  rw [← Bool.not_eq_true, checkCollision_iff]
  push_neg
  rfl

theorem toInt_of_nonneg {f : ℚ} (h : 0 ≤ f) : toInt f = ⌊f⌋ := by
  simp [toInt, h]

theorem gridIndex_eq_floorIndex {p : ℚ} (h : -1 ≤ p) : gridIndex p = floorIndex p := by
  unfold gridIndex floorIndex
  exact toInt_of_nonneg (by linarith)

/-- On positions at least `-0.7` in both planar coordinates (every probe is then at
least `-1`) the source and the floor-rounded oracle of the specification agree. -/
theorem checkCollision_iff_specBlocked (map : Map) (pos : Vec3) (keys : Finset Char)
    (hx : -7 / 10 ≤ pos.x) (hz : -7 / 10 ≤ pos.z) :
    checkCollision map pos keys = true ↔ specBlocked map pos keys := by
  rw [checkCollision_iff]
  unfold specBlocked probeBlocked
  have key : ∀ p ∈ probes pos, gridIndex p.x = floorIndex p.x ∧
      gridIndex p.z = floorIndex p.z := by
    intro p hp
    simp only [probes, offsets, radius, List.map_cons, List.map_nil, List.mem_cons,
      List.mem_singleton, List.not_mem_nil, or_false] at hp
    rcases hp with h | h | h | h | h <;> subst h <;>
      constructor <;> apply gridIndex_eq_floorIndex <;> (try simp only [Vec3.add]) <;>
      linarith
  constructor
  · rintro ⟨p, hp, hb⟩
    exact ⟨p, hp, by rw [← (key p hp).1, ← (key p hp).2]; exact hb⟩
  · rintro ⟨p, hp, hb⟩
    exact ⟨p, hp, by rw [(key p hp).1, (key p hp).2]; exact hb⟩

/-- C1 (evaluation at the failing input).  On the 1×1 floor map, at the position
`(-1.5, 1, 0)` with no keys, `checkCollision` answers `false` (free) although the
centre probe has floor index `⌊-0.25⌋ = -1`, outside the grid, so that the oracle of
the claim answers blocked: the `(int)` conversion truncates `-0.25` to `0`. -/
theorem checkCollision_truncates_negative_probe :
    checkCollision floorMap ⟨-3 / 2, 1, 0⟩ ∅ = false ∧
      specBlocked floorMap ⟨-3 / 2, 1, 0⟩ ∅ ∧
      gridIndex (-3 / 2) = 0 ∧ floorIndex (-3 / 2) = -1 := by
  decide!

/-- The door test with the index computation of the source: when `gridIndex` sends the
centre of the position to a grid cell holding a door `c` (`A`..`E`), `checkCollision`
answers `false` exactly when the key `requiredKey c` is in the inventory and no corner
probe is sent by `gridIndex` to a blocking cell. -/
theorem checkCollision_door_iff (map : Map) (pos : Vec3) (keys : Finset Char) (c : Char)
    (hx : 0 ≤ gridIndex pos.x ∧ gridIndex pos.x < map.width)
    (hz : 0 ≤ gridIndex pos.z ∧ gridIndex pos.z < map.height)
    (hc : map.cell (gridIndex pos.z) (gridIndex pos.x) = c)
    (hdoor : 'A' ≤ c ∧ c ≤ 'E') :
    checkCollision map pos keys = false ↔
      requiredKey c ∈ keys ∧ ∀ off ∈ offsets, ¬ probeBlocked map keys (pos.add off) := by
  have hW : c ≠ 'W' := by
    intro h
    rw [h] at hdoor
    exact absurd hdoor.2 (by decide)
  have hcentre : probeBlocked map keys pos ↔ requiredKey c ∉ keys := by
    unfold probeBlocked blockingCell
    rw [hc]
    constructor
    · rintro (h | h | h)
      · exact absurd ⟨hx.1, hx.2, hz.1, hz.2⟩ h
      · exact absurd h hW
      · exact h.2.2
    · intro h
      exact Or.inr (Or.inr ⟨hdoor.1, hdoor.2, h⟩)
  rw [checkCollision_eq_false_iff]
  simp only [probes, List.mem_cons, forall_eq_or_imp, List.mem_map, forall_exists_index,
    and_imp, forall_apply_eq_imp_iff₂, hcentre, not_not]

/-- The door test at a concrete input: a 1×1 map holding door `A`, the key `a` held,
the player at the cell centre. -/
theorem checkCollision_door_iff_witness :
    checkCollision ⟨1, 1, [['A']], none, none⟩ ⟨0, 1, 0⟩ {'a'} = false ↔
      requiredKey 'A' ∈ ({'a'} : Finset Char) ∧
        ∀ off ∈ offsets, ¬ probeBlocked ⟨1, 1, [['A']], none, none⟩ {'a'}
          (Vec3.add ⟨0, 1, 0⟩ off) :=
  checkCollision_door_iff ⟨1, 1, [['A']], none, none⟩ ⟨0, 1, 0⟩ {'a'} 'A'
    (by decide!) (by decide!) (by decide!) (by decide)

/-- On positions at least `-0.7` in both planar coordinates the door test holds with the
floor rounding of the specification: when the centre lies in a grid cell holding a door
`c`, `checkCollision` answers `false` exactly when the key of `c` is held and no corner
probe lies in a blocking cell. -/
theorem checkCollision_door_iff_floor (map : Map) (pos : Vec3) (keys : Finset Char)
    (c : Char) (hpx : -7 / 10 ≤ pos.x) (hpz : -7 / 10 ≤ pos.z)
    (hx : 0 ≤ floorIndex pos.x ∧ floorIndex pos.x < map.width)
    (hz : 0 ≤ floorIndex pos.z ∧ floorIndex pos.z < map.height)
    (hc : map.cell (floorIndex pos.z) (floorIndex pos.x) = c)
    (hdoor : 'A' ≤ c ∧ c ≤ 'E') :
    checkCollision map pos keys = false ↔
      requiredKey c ∈ keys ∧
        ∀ off ∈ offsets,
          ¬ blockingCell map keys (floorIndex (pos.add off).x) (floorIndex (pos.add off).z) := by
  have ex : gridIndex pos.x = floorIndex pos.x := gridIndex_eq_floorIndex (by linarith)
  have ez : gridIndex pos.z = floorIndex pos.z := gridIndex_eq_floorIndex (by linarith)
  rw [checkCollision_door_iff map pos keys c (by rw [ex]; exact hx) (by rw [ez]; exact hz)
    (by rw [ex, ez]; exact hc) hdoor]
  have key : ∀ off ∈ offsets, gridIndex (pos.add off).x = floorIndex (pos.add off).x ∧
      gridIndex (pos.add off).z = floorIndex (pos.add off).z := by
    intro off hoff
    simp only [offsets, radius, List.mem_cons, List.mem_singleton, List.not_mem_nil,
      or_false] at hoff
    rcases hoff with h | h | h | h <;> subst h <;>
      constructor <;> apply gridIndex_eq_floorIndex <;> simp only [Vec3.add] <;> linarith
  constructor
  · rintro ⟨hk, hoff⟩
    refine ⟨hk, fun off ho hb => hoff off ho ?_⟩
    unfold probeBlocked
    rw [(key off ho).1, (key off ho).2]
    exact hb
  · rintro ⟨hk, hoff⟩
    refine ⟨hk, fun off ho hb => hoff off ho ?_⟩
    unfold probeBlocked at hb
    rw [(key off ho).1, (key off ho).2] at hb
    exact hb

/-- C2 (evaluation at the failing input).  On the map `ASa` the player picks the key
`a` up and walks back through the door `A` to the position `(-0.8, 1, 0)`, which the
loop commits.  There the centre lies in the door cell `(0, 0)` (floor index
`⌊0.1⌋ = 0`), the key `a` is held, and the corner probe `(-1.1, 1, 0.3)` lies outside
the grid (floor index `⌊-0.05⌋ = -1`), a blocking cell, so the claim has
`checkCollision` answer `true`; the source truncates `-0.05` to `0`, reads the unlocked
door again and answers `false`. -/
theorem checkCollision_door_truncates_corner_probe :
    loadMap "3 1\nASa" = LoadResult.loaded doorKeyMap ∧
      run axisGlm doorStart [forwardFrame (2 / 3), backFrame (2 / 5), backFrame (2 / 5),
          backFrame (2 / 5), backFrame (2 / 5)] =
        { map := doorMap
          camera := { doorStart.camera with position := ⟨-8 / 10, 1, 0⟩ }
          collectedKeys := {'a'}
          quit := false } ∧
      (0 ≤ floorIndex (-8 / 10) ∧ floorIndex (-8 / 10) < doorMap.width ∧
        0 ≤ floorIndex 0 ∧ floorIndex 0 < doorMap.height) ∧
      doorMap.cell (floorIndex 0) (floorIndex (-8 / 10)) = 'A' ∧
      requiredKey 'A' = 'a' ∧
      (∃ off ∈ offsets, blockingCell doorMap {'a'}
        (floorIndex ((Vec3.add ⟨-8 / 10, 1, 0⟩ off).x))
        (floorIndex ((Vec3.add ⟨-8 / 10, 1, 0⟩ off).z))) ∧
      floorIndex (-8 / 10 + -radius) = -1 ∧ gridIndex (-8 / 10 + -radius) = 0 ∧
      checkCollision doorMap ⟨-8 / 10, 1, 0⟩ {'a'} = false := by
  decide!

theorem le_toInt {f : ℚ} {w : Int} (h : (w : ℚ) ≤ f) : w ≤ toInt f := by
  unfold toInt
  split_ifs with h0
  · exact Int.le_floor.mpr h
  · have h1 : ((⌊-f⌋ : Int) : ℚ) ≤ -f := Int.floor_le _
    have h2 : ((⌊-f⌋ : Int) : ℚ) ≤ ((-w : Int) : ℚ) := by push_cast; linarith
    have h3 : ⌊-f⌋ ≤ -w := by exact_mod_cast h2
    omega

theorem toInt_neg {f : ℚ} (h : f ≤ -1) : toInt f < 0 := by
  unfold toInt
  rw [if_neg (by linarith)]
  have h1 : (1 : Int) ≤ ⌊-f⌋ := Int.le_floor.mpr (by push_cast; linarith)
  omega

/-- C3 (as stated, refuted).  At the start position `(0, 1, 0)` of a 1×1 map the corner
probe `(-0.3, 1, -0.3)` is outside `[0, 2) × [0, 2)`, yet `checkCollision` answers
`false`: the cell of column 0 is centred on `x = 0` and reaches down to `x = -1`. -/
theorem checkCollision_free_with_probe_outside_world :
    (∃ p ∈ probes ⟨0, 1, 0⟩, outsideWorld startMap p) ∧
      checkCollision startMap ⟨0, 1, 0⟩ ∅ = false := by
  decide!

/-- C3 (amended).  A position one of whose five probe points has `x ≥ 2·width − 1` or
`x ≤ −3`, or `z ≥ 2·height − 1` or `z ≤ −3`, is reported blocked, whatever the map and
the inventory. -/
theorem checkCollision_of_probe_beyond_grid (map : Map) (pos : Vec3) (keys : Finset Char)
    (p : Vec3) (hp : p ∈ probes pos)
    (h : 2 * (map.width : ℚ) - 1 ≤ p.x ∨ p.x ≤ -3 ∨
      2 * (map.height : ℚ) - 1 ≤ p.z ∨ p.z ≤ -3) :
    checkCollision map pos keys = true := by
  rw [checkCollision_iff]
  refine ⟨p, hp, Or.inl ?_⟩
  rintro ⟨h0, h1, h2, h3⟩
  rcases h with h | h | h | h
  · have : map.width ≤ gridIndex p.x := le_toInt (by linarith)
    omega
  · have : gridIndex p.x < 0 := toInt_neg (by linarith)
    omega
  · have : map.height ≤ gridIndex p.z := le_toInt (by linarith)
    omega
  · have : gridIndex p.z < 0 := toInt_neg (by linarith)
    omega

/-- C3 (amended), at a concrete input: on the 1×1 floor map the position `(0.7, 1, 0)`
has the corner probe `(1, 1, 0.3)` with `x = 2·1 − 1`. -/
theorem checkCollision_of_probe_beyond_grid_witness :
    checkCollision floorMap ⟨7 / 10, 1, 0⟩ ∅ = true :=
  checkCollision_of_probe_beyond_grid floorMap ⟨7 / 10, 1, 0⟩ ∅ ⟨1, 1, 3 / 10⟩
    (by decide!) (Or.inl (by decide!))

theorem Map.cell_setCell_same (map : Map) (hwf : map.WF) (gz gx : Int) (c : Char)
    (hx : 0 ≤ gx ∧ gx < map.width) (hz : 0 ≤ gz ∧ gz < map.height) :
    (map.setCell gz gx c).cell gz gx = c := by
  obtain ⟨_, _, hlen, hrow⟩ := hwf
  have hzl : gz.toNat < map.grid.length := by omega
  have hmem : map.grid.getD gz.toNat [] ∈ map.grid := by
    rw [List.getD_eq_getElem _ _ hzl]
    exact List.getElem_mem hzl
  have hxl : gx.toNat < (map.grid.getD gz.toNat []).length := by
    rw [hrow _ hmem]; omega
  rw [List.getD_eq_getElem _ _ hzl] at hxl
  simp [Map.cell, Map.setCell, List.getD_eq_getElem?_getD, List.getElem?_set, hzl, hxl]

theorem Map.cell_setCell_other (map : Map) (gz gx z x : Int) (c : Char)
    (hx : 0 ≤ gx) (hz : 0 ≤ gz) (hx2 : 0 ≤ x) (hz2 : 0 ≤ z) (hne : (z, x) ≠ (gz, gx)) :
    (map.setCell gz gx c).cell z x = map.cell z x := by
  simp only [Map.cell, Map.setCell, List.getD_eq_getElem?_getD, List.getElem?_set]
  by_cases hzz : gz.toNat = z.toNat
  · have hxx : gx.toNat ≠ x.toNat := by
      intro hxx
      apply hne
      have h1 : gz = z := by omega
      have h2 : gx = x := by omega
      rw [h1, h2]
    rw [if_pos hzz]
    split_ifs with hl
    · simp [List.getElem?_set, hxx, hzz]
    · have : map.grid.length ≤ z.toNat := by omega
      simp [List.getElem?_eq_none this]
  · rw [if_neg hzz]

/-- C4.  When the cell under the centre of the position (rounded as in
`checkCollision`) is in the grid and holds a key `a`..`e`, `checkKeyPickup` inserts
that key in the inventory, writes `0` in that cell, keeps the dimensions and every
other cell of the grid; in every other case (centre cell not a key, or centre outside
the grid) it returns the map and the inventory unchanged, whatever the corner probes
lie on. -/
theorem checkKeyPickup_spec (map : Map) (pos : Vec3) (keys : Finset Char) (hwf : map.WF) :
    ((0 ≤ gridIndex pos.x ∧ gridIndex pos.x < map.width ∧
        0 ≤ gridIndex pos.z ∧ gridIndex pos.z < map.height) ∧
        'a' ≤ map.cell (gridIndex pos.z) (gridIndex pos.x) ∧
        map.cell (gridIndex pos.z) (gridIndex pos.x) ≤ 'e' →
      (checkKeyPickup map pos keys).2 =
          insert (map.cell (gridIndex pos.z) (gridIndex pos.x)) keys ∧
        (checkKeyPickup map pos keys).1.cell (gridIndex pos.z) (gridIndex pos.x) = '0' ∧
        (checkKeyPickup map pos keys).1.width = map.width ∧
        (checkKeyPickup map pos keys).1.height = map.height ∧
        ∀ z x : Int, 0 ≤ z → z < map.height → 0 ≤ x → x < map.width →
          (z, x) ≠ (gridIndex pos.z, gridIndex pos.x) →
          (checkKeyPickup map pos keys).1.cell z x = map.cell z x) ∧
    (¬ ((0 ≤ gridIndex pos.x ∧ gridIndex pos.x < map.width ∧
        0 ≤ gridIndex pos.z ∧ gridIndex pos.z < map.height) ∧
        'a' ≤ map.cell (gridIndex pos.z) (gridIndex pos.x) ∧
        map.cell (gridIndex pos.z) (gridIndex pos.x) ≤ 'e') →
      checkKeyPickup map pos keys = (map, keys)) := by
  constructor
  · rintro ⟨⟨h0, h1, h2, h3⟩, hk⟩
    have hin : ¬ (toInt (pos.x / 2 + 1 / 2) < 0 ∨ toInt (pos.x / 2 + 1 / 2) ≥ map.width ∨
        toInt (pos.z / 2 + 1 / 2) < 0 ∨ toInt (pos.z / 2 + 1 / 2) ≥ map.height) := by
      unfold gridIndex at h0 h1 h2 h3
      omega
    have hk2 : 'a' ≤ map.cell (toInt (pos.z / 2 + 1 / 2)) (toInt (pos.x / 2 + 1 / 2)) ∧
        map.cell (toInt (pos.z / 2 + 1 / 2)) (toInt (pos.x / 2 + 1 / 2)) ≤ 'e' := hk
    have hres : checkKeyPickup map pos keys =
        (map.setCell (gridIndex pos.z) (gridIndex pos.x) '0',
          insert (map.cell (gridIndex pos.z) (gridIndex pos.x)) keys) := by
      simp only [checkKeyPickup, if_neg hin, if_pos hk2, gridIndex]
    rw [hres]
    refine ⟨rfl, Map.cell_setCell_same map hwf _ _ _ ⟨h0, h1⟩ ⟨h2, h3⟩, rfl, rfl, ?_⟩
    intro z x hz0 _ hx0 _ hne
    exact Map.cell_setCell_other map _ _ z x _ h0 h2 hx0 hz0 hne
  · intro hn
    unfold gridIndex at hn
    simp only [checkKeyPickup]
    split_ifs with h1 h2
    · rfl
    · exfalso
      apply hn
      refine ⟨?_, h2⟩
      omega
    · rfl

/-- C4, at a concrete input: on the map `0b` a player at the centre `(2, 1, 0)` of cell
`(1,0)` picks the key `b` up; a player at `(0.8, 1, 0)`, whose centre is in the floor
cell `(0,0)` while the corner probe `(1.1, 1, 0.3)` is in the key cell, picks nothing
up. -/
theorem checkKeyPickup_spec_witness :
    (checkKeyPickup floorKeyMap ⟨2, 1, 0⟩ ∅).2 = {'b'} ∧
      (checkKeyPickup floorKeyMap ⟨2, 1, 0⟩ ∅).1.grid = [['0', '0']] ∧
      gridIndex (8 / 10 + radius) = 1 ∧
      checkKeyPickup floorKeyMap ⟨8 / 10, 1, 0⟩ ∅ = (floorKeyMap, ∅) := by
  have hwf : floorKeyMap.WF := by
    refine ⟨by decide, by decide, by decide, ?_⟩
    intro row hrow
    simp only [floorKeyMap, List.mem_singleton] at hrow
    subst hrow
    decide
  have h1 := (checkKeyPickup_spec floorKeyMap ⟨2, 1, 0⟩ ∅ hwf).1 (by decide!)
  have h2 := (checkKeyPickup_spec floorKeyMap ⟨8 / 10, 1, 0⟩ ∅ hwf).2 (by decide!)
  exact ⟨h1.1.trans (by decide!), by decide!, by decide!, h2⟩

/-! ## Frame loop: inventory and pitch -/

theorem handleEvent_collectedKeys (L : Glm) (g : Game) (e : Event) :
    (handleEvent L g e).collectedKeys = g.collectedKeys := by
  cases e <;> rfl

theorem pollEvents_collectedKeys (L : Glm) (es : List Event) (g : Game) :
    (pollEvents L g es).collectedKeys = g.collectedKeys := by
  unfold pollEvents
  induction es generalizing g with
  | nil => rfl
  | cons e rest ih => rw [List.foldl_cons, ih, handleEvent_collectedKeys]

theorem checkKeyPickup_keys_subset (map : Map) (pos : Vec3) (keys : Finset Char) :
    keys ⊆ (checkKeyPickup map pos keys).2 := by
  unfold checkKeyPickup
  simp only
  split_ifs
  · exact Finset.Subset.refl _
  · exact Finset.subset_insert _ _
  · exact Finset.Subset.refl _

theorem commit_collectedKeys (g : Game) (newPos : Vec3) :
    (commit g newPos).collectedKeys = (checkKeyPickup g.map newPos g.collectedKeys).2 := by
  unfold commit
  simp only
  split_ifs <;> rfl

theorem frame_collectedKeys_subset (L : Glm) (g : Game) (inp : FrameInput) :
    g.collectedKeys ⊆ (frame L g inp).collectedKeys := by
  have hev := pollEvents_collectedKeys L inp.events g
  unfold frame
  simp only
  split_ifs
  · rw [hev]
  · rw [commit_collectedKeys, ← hev]
    exact checkKeyPickup_keys_subset _ _ _

theorem run_of_quit (L : Glm) (g : Game) (h : g.quit = true) (inputs : List FrameInput) :
    run L g inputs = g := by
  cases inputs with
  | nil => rfl
  | cons inp rest => simp [run, h]

theorem run_append (L : Glm) (xs ys : List FrameInput) (g : Game) :
    run L g (xs ++ ys) = run L (run L g xs) ys := by
  induction xs generalizing g with
  | nil => rfl
  | cons x rest ih =>
    simp only [List.cons_append, run]
    split_ifs with hq
    · exact (run_of_quit L g hq ys).symm
    · exact ih _

theorem run_collectedKeys_subset (L : Glm) (inputs : List FrameInput) (g : Game) :
    g.collectedKeys ⊆ (run L g inputs).collectedKeys := by
  induction inputs generalizing g with
  | nil => exact Finset.Subset.refl _
  | cons inp rest ih =>
    simp only [run]
    split_ifs
    · exact Finset.Subset.refl _
    · exact (frame_collectedKeys_subset L g inp).trans (ih _)

/-- C5.  One iteration of the loop never removes a key from `collectedKeys`, and for
every initial state and every sequence of frame inputs the inventory after `n + 1`
frames contains the inventory after `n` frames. -/
theorem collectedKeys_monotone (L : Glm) (g : Game) (inputs : List FrameInput) (n : Nat) :
    (∀ inp : FrameInput, g.collectedKeys ⊆ (frame L g inp).collectedKeys) ∧
      (run L g (inputs.take n)).collectedKeys ⊆
        (run L g (inputs.take (n + 1))).collectedKeys := by
  refine ⟨frame_collectedKeys_subset L g, ?_⟩
  rw [List.take_add, run_append]
  exact run_collectedKeys_subset L _ _

theorem Camera.rotate_pitch_bounds (L : Glm) (c : Camera) (dy dp : ℚ) :
    -89 ≤ (c.rotate L dy dp).pitch ∧ (c.rotate L dy dp).pitch ≤ 89 := by
  simp only [Camera.rotate, Camera.updateVectors]
  split_ifs with h1 h2 h3 <;> constructor <;> linarith

/-- C6.  From the constructed camera (pitch 0), after any finite sequence of
`rotate(Δyaw, Δpitch)` calls the pitch lies between −89 and 89. -/
theorem pitch_clamped (L : Glm) (pos : Vec3) (rotations : List (ℚ × ℚ)) :
    -89 ≤ (rotations.foldl (fun c r => c.rotate L r.1 r.2) (Camera.ctor pos)).pitch ∧
      (rotations.foldl (fun c r => c.rotate L r.1 r.2) (Camera.ctor pos)).pitch ≤ 89 := by
  have key : ∀ (rs : List (ℚ × ℚ)) (c : Camera), (-89 ≤ c.pitch ∧ c.pitch ≤ 89) →
      -89 ≤ (rs.foldl (fun c r => c.rotate L r.1 r.2) c).pitch ∧
        (rs.foldl (fun c r => c.rotate L r.1 r.2) c).pitch ≤ 89 := by
    intro rs
    induction rs with
    | nil => intro c hc; exact hc
    | cons r rest ih =>
      intro c _
      rw [List.foldl_cons]
      exact ih _ (Camera.rotate_pitch_bounds L c r.1 r.2)
  exact key rotations _ (by simp [Camera.ctor])

/-! ## Scenarios S1 and S4 -/

theorem gridIndex_mem_Ico {p : ℚ} {a b : Int} (ha : 0 ≤ a) (h1 : 2 * (a : ℚ) - 1 ≤ p)
    (h2 : p < 2 * (b : ℚ) - 1) : a ≤ gridIndex p ∧ gridIndex p < b := by
  have ha' : (0 : ℚ) ≤ (a : ℚ) := by exact_mod_cast ha
  unfold gridIndex
  rw [toInt_of_nonneg (by linarith)]
  exact ⟨Int.le_floor.mpr (by linarith), Int.floor_lt.mpr (by linarith)⟩

theorem gridIndex_eq_of_mem {p : ℚ} (a : Int) (ha : 0 ≤ a) (h1 : 2 * (a : ℚ) - 1 ≤ p)
    (h2 : p < 2 * (a : ℚ) + 1) : gridIndex p = a := by
  have h := gridIndex_mem_Ico (b := a + 1) ha h1 (by push_cast; linarith)
  omega

theorem candidate_forward (L : Glm) (hL : L.normalize ⟨1, 0, 0⟩ = ⟨1, 0, 0⟩) (c : Camera)
    (hf : c.front = ⟨1, 0, 0⟩) (inp : FrameInput) (hW : inp.keyW = true)
    (hS : inp.keyS = false) (hA : inp.keyA = false) (hD : inp.keyD = false) :
    candidate L c inp = ⟨c.position.x + 3 * inp.deltaTime, c.position.y, c.position.z⟩ := by
  simp [candidate, hf, hL, hW, hS, hA, hD, Vec3.add, Vec3.scale]

/-- C7 (as stated, refuted).  On the map `SG.` one frame with only `W` held and
`Δt = 1` does not set `quit`.  From the constructed camera (`front = −Z`) the
candidate `(0, 1, −3)` is outside the grid and the camera stays at the start; with the
camera turned to yaw 0, pitch 0 (`rotate(90, 0)`, `front = +X`) the candidate
`(3, 1, 0)` is committed and lies in cell 2, the tile `.` beyond the goal. -/
theorem s1_frame_not_won :
    (frame axisGlm (Game.start s1Map ⟨0, 1, 0⟩) (forwardFrame 1)).quit = false ∧
      (frame axisGlm (Game.start s1Map ⟨0, 1, 0⟩) (forwardFrame 1)).camera.position
        = ⟨0, 1, 0⟩ ∧
      (Camera.ctor ⟨0, 1, 0⟩).rotate axisGlm 90 0 = (facingX s1Map).camera ∧
      (frame axisGlm (facingX s1Map) (forwardFrame 1)).quit = false ∧
      (frame axisGlm (facingX s1Map) (forwardFrame 1)).camera.position = ⟨3, 1, 0⟩ ∧
      gridIndex 3 = 2 ∧ s1Map.cell 0 2 = '.' := by
  decide!

theorem s1Map_row_free (gx : Int) (h0 : 0 ≤ gx) (h1 : gx < 3) :
    ¬ blockingCell s1Map ∅ gx 0 := by
  interval_cases gx <;> decide!

/-- C7 (amended).  On the map `SG.`, with the camera at the start `(0, 1, 0)` looking
along `+X`, one frame with only `W` held and `1/3 ≤ Δt < 1` commits the position
`(3·Δt, 1, 0)`, which lies in the goal cell `(1, 0)`, and sets `quit`. -/
theorem s1_frame_won (L : Glm) (hL : L.normalize ⟨1, 0, 0⟩ = ⟨1, 0, 0⟩) (dt : ℚ)
    (h1 : 1 / 3 ≤ dt) (h2 : dt < 1) :
    (frame L (facingX s1Map) (forwardFrame dt)).quit = true ∧
      (frame L (facingX s1Map) (forwardFrame dt)).camera.position = ⟨3 * dt, 1, 0⟩ ∧
      gridIndex (3 * dt) = 1 ∧ gridIndex 0 = 0 ∧ s1Map.cell 0 1 = 'G' := by
  have hcand : candidate L (facingX s1Map).camera (forwardFrame dt) = ⟨3 * dt, 1, 0⟩ := by
    rw [candidate_forward L hL _ rfl _ rfl rfl rfl rfl]
    simp [facingX, forwardFrame]
  have hx : gridIndex (3 * dt) = 1 :=
    gridIndex_eq_of_mem 1 (by norm_num) (by push_cast; linarith) (by push_cast; linarith)
  have hz : gridIndex 0 = 0 := by decide!
  have hfree : checkCollision s1Map ⟨3 * dt, 1, 0⟩ ∅ = false := by
    rw [checkCollision_eq_false_iff]
    intro p hp
    simp only [probes, offsets, radius, List.map_cons, List.map_nil, List.mem_cons,
      List.mem_singleton, List.not_mem_nil, or_false] at hp
    have hzp : gridIndex p.z = 0 := by
      rcases hp with h | h | h | h | h <;> subst h <;> (try simp only [Vec3.add]) <;>
        apply gridIndex_eq_of_mem 0 (le_refl _) <;> norm_num
    have hxp : 0 ≤ gridIndex p.x ∧ gridIndex p.x < 3 := by
      rcases hp with h | h | h | h | h <;> subst h <;> (try simp only [Vec3.add]) <;>
        apply gridIndex_mem_Ico (le_refl _) <;> push_cast <;> linarith
    unfold probeBlocked
    rw [hzp]
    exact s1Map_row_free _ hxp.1 hxp.2
  have hpick : checkKeyPickup s1Map ⟨3 * dt, 1, 0⟩ ∅ = (s1Map, ∅) := by
    have hx' : toInt (3 * dt / 2 + 1 / 2) = 1 := hx
    have hz' : toInt ((0 : ℚ) / 2 + 1 / 2) = 0 := hz
    simp only [checkKeyPickup, hx', hz']
    decide!
  have hwin : checkWin s1Map ⟨3 * dt, 1, 0⟩ = true := by
    have hx' : toInt (3 * dt / 2 + 1 / 2) = 1 := hx
    have hz' : toInt ((0 : ℚ) / 2 + 1 / 2) = 0 := hz
    simp only [checkWin, hx', hz']
    decide!
  have hframe : frame L (facingX s1Map) (forwardFrame dt) =
      { map := s1Map
        camera := { (facingX s1Map).camera with position := ⟨3 * dt, 1, 0⟩ }
        collectedKeys := ∅
        quit := true } := by
    have hpoll : pollEvents L (facingX s1Map) (forwardFrame dt).events = facingX s1Map := rfl
    simp only [frame, hpoll, hcand]
    have hfree' : checkCollision (facingX s1Map).map ⟨3 * dt, 1, 0⟩
        (facingX s1Map).collectedKeys = false := hfree
    rw [hfree']
    have hpick' : checkKeyPickup (facingX s1Map).map ⟨3 * dt, 1, 0⟩
        (facingX s1Map).collectedKeys = (s1Map, ∅) := hpick
    simp only [commit, hpick', hwin, Bool.false_eq_true, if_false, if_true]
  rw [hframe]
  exact ⟨rfl, rfl, hx, hz, by decide⟩

/-- C7 (amended), at a concrete input: `Δt = 1/2` moves the camera to `(1.5, 1, 0)`. -/
theorem s1_frame_won_witness :
    (frame axisGlm (facingX s1Map) (forwardFrame (1 / 2))).quit = true ∧
      (frame axisGlm (facingX s1Map) (forwardFrame (1 / 2))).camera.position
        = ⟨3 * (1 / 2), 1, 0⟩ ∧
      gridIndex (3 * (1 / 2)) = 1 ∧ gridIndex 0 = 0 ∧ s1Map.cell 0 1 = 'G' :=
  s1_frame_won axisGlm (by decide!) (1 / 2) (by norm_num) (by norm_num)

theorem handleEvent_of_not_motion (L : Glm) (g : Game) (e : Event)
    (h : ∀ xrel yrel, e ≠ Event.mouseMotion xrel yrel) :
    (handleEvent L g e).camera = g.camera ∧ (handleEvent L g e).map = g.map := by
  cases e with
  | sdlQuit => exact ⟨rfl, rfl⟩
  | escapeUp => exact ⟨rfl, rfl⟩
  | mouseMotion xrel yrel => exact absurd rfl (h xrel yrel)
  | ignored => exact ⟨rfl, rfl⟩

theorem pollEvents_of_no_motion (L : Glm) (es : List Event) (g : Game)
    (h : ∀ e ∈ es, ∀ xrel yrel, e ≠ Event.mouseMotion xrel yrel) :
    (pollEvents L g es).camera = g.camera ∧ (pollEvents L g es).map = g.map := by
  unfold pollEvents
  induction es generalizing g with
  | nil => exact ⟨rfl, rfl⟩
  | cons e rest ih =>
    rw [List.foldl_cons]
    have hrest := ih (handleEvent L g e) (fun e' he' => h e' (List.mem_cons_of_mem _ he'))
    have he := handleEvent_of_not_motion L g e (h e (List.mem_cons_self _ _))
    exact ⟨hrest.1.trans he.1, hrest.2.trans he.2⟩

/-- A position on the line `z = 0` with `0.7 ≤ x < 3.3` has a corner probe in the cell
`(x = 1, z = 0)`; when that tile is a wall the position is blocked. -/
theorem checkCollision_at_wall (map : Map) (keys : Finset Char) (pos : Vec3)
    (hW : map.cell 0 1 = 'W') (hz : pos.z = 0) (h1 : 7 / 10 ≤ pos.x) (h2 : pos.x < 33 / 10) :
    checkCollision map pos keys = true := by
  rw [checkCollision_iff]
  have hzi : gridIndex (pos.z + 3 / 10) = 0 := by
    rw [hz]; decide!
  by_cases h : pos.x + 3 / 10 < 3
  · refine ⟨pos.add ⟨radius, 0, radius⟩, by simp [probes, offsets], ?_⟩
    have hxi : gridIndex (pos.x + 3 / 10) = 1 :=
      gridIndex_eq_of_mem 1 (by norm_num) (by push_cast; linarith) (by push_cast; linarith)
    unfold probeBlocked blockingCell
    simp only [Vec3.add, radius, hxi, hzi]
    exact Or.inr (Or.inl hW)
  · refine ⟨pos.add ⟨-radius, 0, radius⟩, by simp [probes, offsets], ?_⟩
    have hxi : gridIndex (pos.x + -(3 / 10)) = 1 :=
      gridIndex_eq_of_mem 1 (by norm_num) (by push_cast; linarith) (by push_cast; linarith)
    unfold probeBlocked blockingCell
    simp only [Vec3.add, radius, hxi, hzi]
    exact Or.inr (Or.inl hW)

theorem checkKeyPickup_keeps_wall (map : Map) (pos : Vec3) (keys : Finset Char) (z x : Int)
    (hz : 0 ≤ z) (hx : 0 ≤ x) (hW : map.cell z x = 'W') :
    (checkKeyPickup map pos keys).1.cell z x = 'W' := by
  unfold checkKeyPickup
  simp only
  split_ifs with h1 h2
  · exact hW
  · by_cases hne : (z, x) = (toInt (pos.z / 2 + 1 / 2), toInt (pos.x / 2 + 1 / 2))
    · exfalso
      simp only [Prod.mk.injEq] at hne
      rw [← hne.1, ← hne.2, hW] at h2
      exact absurd h2.1 (by decide)
    · rw [Map.cell_setCell_other map _ _ z x _ (by omega) (by omega) hx hz hne]
      exact hW
  · exact hW

theorem commit_fields (g : Game) (newPos : Vec3) :
    (commit g newPos).camera = { g.camera with position := newPos } ∧
      (commit g newPos).map = (checkKeyPickup g.map newPos g.collectedKeys).1 := by
  unfold commit
  simp only
  split_ifs <;> exact ⟨rfl, rfl⟩

theorem frame_beforeWall (L : Glm) (hL : L.normalize ⟨1, 0, 0⟩ = ⟨1, 0, 0⟩) (g : Game)
    (hg : g.beforeWall) (inp : FrameInput) (hf : inp.forwardOnly)
    (hdt : inp.deltaTime ≤ 13 / 15) : (frame L g inp).beforeWall := by
  obtain ⟨hz, hx, hfront, hW⟩ := hg
  obtain ⟨kW, kS, kA, kD, hev⟩ := hf
  obtain ⟨hcam, hmap⟩ := pollEvents_of_no_motion L inp.events g hev
  have hcand : candidate L (pollEvents L g inp.events).camera inp =
      ⟨g.camera.position.x + 3 * inp.deltaTime, g.camera.position.y, g.camera.position.z⟩ := by
    rw [hcam]
    exact candidate_forward L hL _ hfront _ kW kS kA kD
  unfold frame
  simp only [hcand]
  split_ifs with hblocked
  · exact ⟨by rw [hcam]; exact hz, by rw [hcam]; exact hx, by rw [hcam]; exact hfront,
      by rw [hmap]; exact hW⟩
  · obtain ⟨hc, hm⟩ := commit_fields (pollEvents L g inp.events)
      ⟨g.camera.position.x + 3 * inp.deltaTime, g.camera.position.y, g.camera.position.z⟩
    unfold Game.beforeWall
    rw [hc, hm, hcam, hmap]
    refine ⟨hz, ?_, hfront, checkKeyPickup_keeps_wall _ _ _ 0 1 (le_refl _) (by norm_num) hW⟩
    by_contra hge
    simp only [not_lt] at hge
    apply hblocked
    rw [hmap]
    exact checkCollision_at_wall g.map _ _ hW hz hge (by simp only; linarith)

theorem run_beforeWall (L : Glm) (hL : L.normalize ⟨1, 0, 0⟩ = ⟨1, 0, 0⟩)
    (inputs : List FrameInput)
    (hin : ∀ inp ∈ inputs, inp.forwardOnly ∧ inp.deltaTime ≤ 13 / 15) (g : Game)
    (hg : g.beforeWall) : (run L g inputs).beforeWall := by
  induction inputs generalizing g with
  | nil => exact hg
  | cons inp rest ih =>
    simp only [run]
    split_ifs
    · exact hg
    · have h := hin inp (List.mem_cons_self _ _)
      exact ih (fun i hi => hin i (List.mem_cons_of_mem _ hi)) _
        (frame_beforeWall L hL g hg inp h.1 h.2)

/-- C8 (as stated, refuted).  On the map `SW0` (tile `(1, 0)` is `W`), from the start
`(0, 1, 0)` looking along `+X`, one frame with only `W` held and `Δt = 1.5` commits the
position `(4.5, 1, 0)`: all five probes of the candidate fall in the floor cell
`(2, 0)` beyond the wall, and `4.5 > 1.7`. -/
theorem s4_wall_crossed :
    wallMap.cell 0 1 = 'W' ∧
      (frame axisGlm (facingX wallMap) (forwardFrame (3 / 2))).camera.position
        = ⟨9 / 2, 1, 0⟩ ∧
      ((17 : ℚ) / 10 <
        (run axisGlm (facingX wallMap) [forwardFrame (3 / 2)]).camera.position.x) := by
  decide!

/-- C8 (amended).  For every map whose tile `(x = 1, z = 0)` is `W`, a player that
starts at `(0, 1, 0)` looking along `+X` and holds only `W`, with no mouse motion, for
any number of frames with `0 ≤ Δt ≤ 13/15` in each (a step of at most 2.6 units) never
has a committed position whose `x` exceeds `1.7`; it stays below `0.7`. -/
theorem s4_wall_stops (L : Glm) (hL : L.normalize ⟨1, 0, 0⟩ = ⟨1, 0, 0⟩) (map : Map)
    (hW : map.cell 0 1 = 'W') (inputs : List FrameInput)
    (hin : ∀ inp ∈ inputs, inp.forwardOnly ∧ 0 ≤ inp.deltaTime ∧ inp.deltaTime ≤ 13 / 15)
    (n : Nat) :
    (run L (facingX map) (inputs.take n)).camera.position.x ≤ 17 / 10 ∧
      (run L (facingX map) (inputs.take n)).camera.position.x < 7 / 10 := by
  have h0 : (facingX map).beforeWall := ⟨rfl, by simp [facingX], rfl, hW⟩
  have hin' : ∀ inp ∈ inputs.take n, inp.forwardOnly ∧ inp.deltaTime ≤ 13 / 15 :=
    fun inp hi => ⟨(hin inp (List.mem_of_mem_take hi)).1,
      (hin inp (List.mem_of_mem_take hi)).2.2⟩
  have h := run_beforeWall L hL (inputs.take n) hin' _ h0
  exact ⟨by linarith [h.2.1], h.2.1⟩

/-- C8 (amended), at a concrete input: on the map `SW0` three frames of `Δt = 0.1`. -/
theorem s4_wall_stops_witness :
    (run axisGlm (facingX wallMap)
        ([forwardFrame (1 / 10), forwardFrame (1 / 10), forwardFrame (1 / 10)].take 3)
      ).camera.position.x ≤ 17 / 10 ∧
      (run axisGlm (facingX wallMap)
        ([forwardFrame (1 / 10), forwardFrame (1 / 10), forwardFrame (1 / 10)].take 3)
      ).camera.position.x < 7 / 10 :=
  s4_wall_stops axisGlm (by decide!) wallMap (by decide)
    [forwardFrame (1 / 10), forwardFrame (1 / 10), forwardFrame (1 / 10)]
    (by
      intro inp hinp
      simp only [List.mem_cons, List.mem_singleton, List.not_mem_nil, or_false,
        or_self] at hinp
      subst hinp
      refine ⟨⟨rfl, rfl, rfl, rfl, ?_⟩, by norm_num [forwardFrame], by norm_num [forwardFrame]⟩
      intro e he
      simp [forwardFrame] at he)
    3

/-! ## Map loader -/

theorem loadCell_fold (line : List Char) (y width : Nat) (sp gp : Option Vec3) (n : Nat)
    (hn : n ≤ width) :
    ((List.range n).foldl (loadCell line y)
        ⟨List.replicate width (Char.ofNat 0), sp, gp⟩).row.length = width ∧
      ∀ x, ((List.range n).foldl (loadCell line y)
          ⟨List.replicate width (Char.ofNat 0), sp, gp⟩).row.getD x (Char.ofNat 0) =
        if x < n ∧ x < line.length then line.getD x (Char.ofNat 0) else Char.ofNat 0 := by
  induction n with
  | zero =>
    refine ⟨by simp, fun x => ?_⟩
    have h0 : ¬ (x < 0 ∧ x < line.length) := by omega
    simp only [List.range_zero, List.foldl_nil, List.getD_eq_getElem?_getD,
      List.getElem?_replicate, h0, if_false]
    split_ifs <;> simp
  | succ n ih =>
    obtain ⟨hlen, hget⟩ := ih (by omega)
    rw [List.range_succ, List.foldl_append, List.foldl_cons, List.foldl_nil]
    generalize (List.range n).foldl (loadCell line y)
      ⟨List.replicate width (Char.ofNat 0), sp, gp⟩ = st at hlen hget
    unfold loadCell
    split_ifs with hl
    · refine ⟨by simp [hlen], fun x => ?_⟩
      simp only
      by_cases hx : x = n
      · subst hx
        have hxl : x < st.row.length := by omega
        simp [List.getD_eq_getElem?_getD, List.getElem?_set, hxl, hl]
      · have h1 := hget x
        simp only [List.getD_eq_getElem?_getD] at h1 ⊢
        rw [List.getElem?_set_ne (Ne.symm hx), h1]
        have : (x < n + 1 ∧ x < line.length) ↔ (x < n ∧ x < line.length) := by
          constructor
          · rintro ⟨a, b⟩; exact ⟨by omega, b⟩
          · rintro ⟨a, b⟩; exact ⟨by omega, b⟩
        simp only [this]
    · refine ⟨hlen, fun x => ?_⟩
      rw [hget x]
      by_cases hx : x < line.length
      · have h1 : x < n := by omega
        have h2 : x < n + 1 := by omega
        simp [h1, h2, hx]
      · simp [hx]

theorem loadRow_row (width : Nat) (line : List Char) (y : Nat) (sp gp : Option Vec3) :
    (loadRow width line y sp gp).row = specRow (Char.ofNat 0) width line := by
  obtain ⟨hlen, hget⟩ := loadCell_fold line y width sp gp width (le_refl _)
  unfold loadRow
  apply List.ext_getElem
  · rw [hlen]; simp [specRow]
  · intro i h1 h2
    have hi : i < width := by omega
    rw [← List.getD_eq_getElem _ (Char.ofNat 0) h1, hget i]
    simp [specRow, hi]

theorem loadCell_fold_startPos (line : List Char) (y : Nat) (st : RowState) (n : Nat) :
    ((List.range n).foldl (loadCell line y) st).startPos = st.startPos ∨
      ∃ x, x < n ∧ x < line.length ∧ line.getD x (Char.ofNat 0) = 'S' := by
  induction n with
  | zero => exact Or.inl rfl
  | succ n ih =>
    rw [List.range_succ, List.foldl_append, List.foldl_cons, List.foldl_nil]
    rcases ih with h | ⟨x, hx, hl, hS⟩
    · unfold loadCell
      split_ifs with hl
      · by_cases hS : line.getD n (Char.ofNat 0) = 'S'
        · exact Or.inr ⟨n, by omega, hl, hS⟩
        · left
          simp only [hS, if_false]
          exact h
      · exact Or.inl h
    · exact Or.inr ⟨x, by omega, hl, hS⟩

theorem loadRow_startPos (width : Nat) (line : List Char) (y : Nat) (sp gp : Option Vec3) :
    (loadRow width line y sp gp).startPos = sp ∨ 'S' ∈ (loadRow width line y sp gp).row := by
  rcases loadCell_fold_startPos line y ⟨List.replicate width (Char.ofNat 0), sp, gp⟩ width
    with h | ⟨x, hx, hl, hS⟩
  · exact Or.inl h
  · right
    rw [loadRow_row]
    unfold specRow
    rw [List.mem_map]
    exact ⟨x, List.mem_range.mpr hx, by rw [if_pos hl]; exact hS⟩

theorem takeWhile_line (l r : List Char) (h : '\n' ∉ l) :
    (l ++ '\n' :: r).takeWhile (fun c => c != '\n') = l ∧
      (l ++ '\n' :: r).dropWhile (fun c => c != '\n') = '\n' :: r := by
  induction l with
  | nil => simp
  | cons c t ih =>
    have hc : c ≠ '\n' := fun hc => h (by simp [hc])
    have ht : '\n' ∉ t := fun ht => h (List.mem_cons_of_mem _ ht)
    obtain ⟨h1, h2⟩ := ih ht
    simp [List.takeWhile_cons, List.dropWhile_cons, hc, h1, h2]

theorem takeWhile_last_line (l : List Char) (h : '\n' ∉ l) :
    l.takeWhile (fun c => c != '\n') = l ∧ l.dropWhile (fun c => c != '\n') = [] := by
  induction l with
  | nil => simp
  | cons c t ih =>
    have hc : c ≠ '\n' := fun hc => h (by simp [hc])
    have ht : '\n' ∉ t := fun ht => h (List.mem_cons_of_mem _ ht)
    obtain ⟨h1, h2⟩ := ih ht
    simp [List.takeWhile_cons, List.dropWhile_cons, hc, h1, h2]

theorem getline_line (l r old : List Char) (h : '\n' ∉ l) :
    getline ⟨l ++ '\n' :: r, true⟩ old = (l, ⟨r, true⟩) := by
  obtain ⟨h1, h2⟩ := takeWhile_line l r h
  simp [getline, h1, h2]

theorem getline_last_line (l old : List Char) (h : '\n' ∉ l) :
    getline ⟨l, true⟩ old = (l, ⟨[], false⟩) := by
  obtain ⟨h1, h2⟩ := takeWhile_last_line l h
  simp [getline, h1, h2]

theorem loadLine_fold_rows (width : Nat) (lines : List (List Char)) :
    ∀ (ys : List Nat) (st : LoadState) (body : List Char), ys.length = lines.length →
      st.file = ⟨body, true⟩ → RowLines body lines →
      (ys.foldl (loadLine width) st).rows =
        st.rows ++ lines.map (specRow (Char.ofNat 0) width) := by
  induction lines with
  | nil =>
    intro ys st body hlen _ _
    have : ys = [] := List.length_eq_zero.mp hlen
    subst this
    simp
  | cons l ls ih =>
    intro ys st body hlen hfile hrows
    cases ys with
    | nil => simp at hlen
    | cons y ys =>
      obtain ⟨hl, hcase⟩ := hrows
      rw [List.foldl_cons]
      rcases hcase with ⟨hb, hls⟩ | ⟨r, hb, hrest⟩
      · subst hls
        have hys : ys = [] := by
          apply List.length_eq_zero.mp
          simpa using hlen
        subst hys
        subst hb
        simp [loadLine, hfile, getline_last_line _ _ hl, loadRow_row]
      · subst hb
        have hstep : (loadLine width st y).file = ⟨r, true⟩ := by
          simp [loadLine, hfile, getline_line _ _ _ hl]
        have hrow : (loadLine width st y).rows =
            st.rows ++ [specRow (Char.ofNat 0) width l] := by
          simp [loadLine, hfile, getline_line _ _ _ hl, loadRow_row]
        rw [ih ys _ r (by simpa using hlen) hstep hrest, hrow]
        simp

theorem loadLine_fold_startPos (width : Nat) (ys : List Nat) :
    ∀ st : LoadState, (st.startPos = none ∨ ∃ row ∈ st.rows, 'S' ∈ row) →
      ((ys.foldl (loadLine width) st).startPos = none ∨
        ∃ row ∈ (ys.foldl (loadLine width) st).rows, 'S' ∈ row) := by
  induction ys with
  | nil => intro st h; exact h
  | cons y ys ih =>
    intro st h
    rw [List.foldl_cons]
    apply ih
    rcases h with h | ⟨row, hrow, hS⟩
    · rcases loadRow_startPos width (getline st.file st.line).1 y st.startPos st.goalPos
        with h1 | h1
      · left
        simp only [loadLine]
        rw [h1, h]
      · right
        exact ⟨_, by simp [loadLine], h1⟩
    · right
      exact ⟨row, by simp [loadLine, hrow], hS⟩

theorem specRow_take (fill : Char) (width : Nat) (line : List Char) :
    specRow fill width (line.take width) = specRow fill width line := by
  unfold specRow
  apply List.map_congr_left
  intro x hx
  have hx' : x < width := List.mem_range.mp hx
  have h1 : (x < (line.take width).length) ↔ x < line.length := by
    rw [List.length_take]; omega
  simp only [h1, List.getD_eq_getElem?_getD, List.getElem?_take_of_lt hx']

theorem specRow_cell (fill : Char) (width : Nat) (line : List Char) (x : Nat)
    (hx : x < width) :
    (specRow fill width line).getD x fill =
      if x < line.length then line.getD x fill else fill := by
  have hlen : x < (specRow fill width line).length := by simp [specRow, hx]
  rw [List.getD_eq_getElem _ _ hlen]
  simp [specRow]

theorem loadMap_loaded (text : String) (width height : Int) (s1 s2 : IStream)
    (hw : readInt ⟨text.toList, true⟩ = some (width, s1))
    (hh : readInt s1 = some (height, s2)) (hheight : 0 ≤ height) (hwidth : 0 ≤ width) :
    loadMap text = LoadResult.loaded
      { width := width, height := height
        grid := ((List.range height.toNat).foldl (loadLine width.toNat)
          { file := (getline s2 []).2, line := (getline s2 []).1, rows := [],
            startPos := none, goalPos := none }).rows
        startPos := ((List.range height.toNat).foldl (loadLine width.toNat)
          { file := (getline s2 []).2, line := (getline s2 []).1, rows := [],
            startPos := none, goalPos := none }).startPos
        goalPos := ((List.range height.toNat).foldl (loadLine width.toNat)
          { file := (getline s2 []).2, line := (getline s2 []).1, rows := [],
            startPos := none, goalPos := none }).goalPos } := by
  simp only [loadMap, hw, hh]
  rw [if_neg (by omega), if_neg (by omega)]

/-- The maps of the scenarios are what `loadMap` builds from their texts. -/
theorem loadMap_scenario_maps :
    loadMap "3 1\nSG." = LoadResult.loaded s1Map ∧
      loadMap "3 1\nSW0" = LoadResult.loaded wallMap ∧
      loadMap "1 1\nS" = LoadResult.loaded startMap := by
  decide!

/-- C9 (as stated, refuted).  From the text `3 1 / S`, whose row line has one
character, `loadMap` leaves the NUL character in the cells of columns 1 and 2: the
filler is neither `0` nor a space. -/
theorem loadMap_short_line_gives_nul :
    loadMap "3 1\nS" = LoadResult.loaded
        ⟨3, 1, [['S', Char.ofNat 0, Char.ofNat 0]], some ⟨0, 1, 0⟩, none⟩ ∧
      Char.ofNat 0 ≠ '0' ∧ Char.ofNat 0 ≠ ' ' := by
  decide!

/-- C9 (amended).  For a map text made of a header `width height` (`width ≥ 0`), the
rest of the header line, and `height` row lines, `loadMap` returns a map of `height`
rows of `width` cells; the cell of row `y` and column `x` holds the character of the
line at that column when the line is long enough and the NUL character otherwise; the
grid is the same as for the lines cut at `width` characters; and NUL is none of the
tiles the game logic reacts to (`W`, a door, a key, `G`). -/
theorem loadMap_rows (text : String) (width height : Int) (s1 : IStream)
    (tail body : List Char) (lines : List (List Char))
    (hw : readInt ⟨text.toList, true⟩ = some (width, s1))
    (hh : readInt s1 = some (height, ⟨tail ++ '\n' :: body, true⟩))
    (htail : '\n' ∉ tail) (hrows : RowLines body lines)
    (hlen : (lines.length : Int) = height) (hwidth : 0 ≤ width) :
    ∃ m, loadMap text = LoadResult.loaded m ∧ m.width = width ∧ m.height = height ∧
      m.WF ∧
      (∀ y x : Nat, y < lines.length → x < width.toNat →
        m.cell y x =
          if x < (lines.getD y []).length then (lines.getD y []).getD x (Char.ofNat 0)
          else Char.ofNat 0) ∧
      m.grid = (lines.map (List.take width.toNat)).map (specRow (Char.ofNat 0) width.toNat) ∧
      (Char.ofNat 0 ≠ 'W' ∧ ¬ ('A' ≤ Char.ofNat 0) ∧ ¬ ('a' ≤ Char.ofNat 0) ∧
        Char.ofNat 0 ≠ 'G') := by
  have hheight : 0 ≤ height := by omega
  have hgrid : ((List.range height.toNat).foldl (loadLine width.toNat)
      { file := (getline ⟨tail ++ '\n' :: body, true⟩ []).2,
        line := (getline ⟨tail ++ '\n' :: body, true⟩ []).1,
        rows := [], startPos := none, goalPos := none }).rows =
      lines.map (specRow (Char.ofNat 0) width.toNat) := by
    rw [loadLine_fold_rows width.toNat lines _ _ body (by simp; omega)
      (by rw [getline_line _ _ _ htail]) hrows]
    simp
  refine ⟨_, loadMap_loaded text width height s1 _ hw hh hheight hwidth, rfl, rfl,
    ?_, ?_, ?_, by decide⟩
  · refine ⟨hwidth, hheight, ?_, ?_⟩
    · simp only [hgrid, List.length_map]; omega
    · intro row hrow
      simp only [hgrid, List.mem_map] at hrow
      obtain ⟨l, _, rfl⟩ := hrow
      simp [specRow]
  · intro y x hy hx
    simp only [Map.cell, hgrid, Int.toNat_ofNat]
    have h1 : (lines.map (specRow (Char.ofNat 0) width.toNat)).getD y [] =
        specRow (Char.ofNat 0) width.toNat (lines.getD y []) := by
      rw [List.getD_eq_getElem _ _ (by simpa using hy), List.getD_eq_getElem _ _ hy]
      simp
    rw [h1, specRow_cell _ _ _ _ hx]
  · simp only [hgrid, List.map_map]
    apply List.map_congr_left
    intro l _
    exact (specRow_take _ _ _).symm

/-- C9 (amended), at a concrete input: width 2, a first row line `SWxx` longer than the
width and a second row line `G` shorter than it. -/
theorem loadMap_rows_witness :
    ∃ m, loadMap "2 2\nSWxx\nG" = LoadResult.loaded m ∧ m.width = 2 ∧ m.height = 2 ∧
      m.WF ∧
      (∀ y x : Nat, y < [['S', 'W', 'x', 'x'], ['G']].length → x < (2 : Int).toNat →
        m.cell y x =
          if x < ([['S', 'W', 'x', 'x'], ['G']].getD y []).length then
            ([['S', 'W', 'x', 'x'], ['G']].getD y []).getD x (Char.ofNat 0)
          else Char.ofNat 0) ∧
      m.grid = ([['S', 'W', 'x', 'x'], ['G']].map (List.take (2 : Int).toNat)).map
        (specRow (Char.ofNat 0) (2 : Int).toNat) ∧
      (Char.ofNat 0 ≠ 'W' ∧ ¬ ('A' ≤ Char.ofNat 0) ∧ ¬ ('a' ≤ Char.ofNat 0) ∧
        Char.ofNat 0 ≠ 'G') :=
  loadMap_rows "2 2\nSWxx\nG" 2 2 ⟨" 2\nSWxx\nG".toList, true⟩ [] "SWxx\nG".toList
    [['S', 'W', 'x', 'x'], ['G']] (by decide!) (by decide!) (by simp)
    ⟨by decide, Or.inr ⟨['G'], by decide, by decide, Or.inl ⟨rfl, rfl⟩⟩⟩ (by decide)
    (by decide)

/-- C10 (as stated, refuted).  The text `1 1 / 0` has a well-formed header and no `S`;
`loadMap` returns the 1×1 map with `startPos` never assigned, and the startup goes on
to the loop state with `quit = false`. -/
theorem loadMap_without_start_loads :
    loadMap "1 1\n0" = LoadResult.loaded floorMap ∧ floorMap.startPos = none ∧
      startup ⟨0, 0, 0⟩ "1 1\n0" = some (Game.start floorMap ⟨0, 0, 0⟩) ∧
      (Game.start floorMap ⟨0, 0, 0⟩).quit = false := by
  decide!

/-- C10 (amended).  For every map text whose header gives two non-negative integers,
`loadMap` returns a map with these dimensions and makes no test for a start tile: when
no cell of the grid holds `S`, `startPos` is never assigned and the startup enters the
loop with the camera constructed at the unassigned value. -/
theorem loadMap_no_start_check (text : String) (width height : Int) (s1 s2 : IStream)
    (hw : readInt ⟨text.toList, true⟩ = some (width, s1))
    (hh : readInt s1 = some (height, s2)) (hheight : 0 ≤ height) (hwidth : 0 ≤ width) :
    ∃ m, loadMap text = LoadResult.loaded m ∧ m.width = width ∧ m.height = height ∧
      ((∀ row ∈ m.grid, 'S' ∉ row) →
        m.startPos = none ∧
          ∀ unassigned, startup unassigned text = some (Game.start m unassigned)) := by
  have hload := loadMap_loaded text width height s1 s2 hw hh hheight hwidth
  refine ⟨_, hload, rfl, rfl, ?_⟩
  intro hS
  have hnone := loadLine_fold_startPos width.toNat (List.range height.toNat)
    { file := (getline s2 []).2, line := (getline s2 []).1, rows := [],
      startPos := none, goalPos := none } (Or.inl rfl)
  have hstart : ((List.range height.toNat).foldl (loadLine width.toNat)
      { file := (getline s2 []).2, line := (getline s2 []).1, rows := [],
        startPos := none, goalPos := none }).startPos = none := by
    rcases hnone with h | ⟨row, hrow, hmem⟩
    · exact h
    · exact absurd hmem (hS row hrow)
  refine ⟨hstart, fun u => ?_⟩
  simp only [startup, hload, hstart, Option.getD_none]

/-- C10 (amended), at a concrete input: the text `2 1 / 0G`. -/
theorem loadMap_no_start_check_witness :
    ∃ m, loadMap "2 1\n0G" = LoadResult.loaded m ∧ m.width = 2 ∧ m.height = 1 ∧
      ((∀ row ∈ m.grid, 'S' ∉ row) →
        m.startPos = none ∧
          ∀ unassigned, startup unassigned "2 1\n0G" = some (Game.start m unassigned)) :=
  loadMap_no_start_check "2 1\n0G" 2 1 ⟨" 1\n0G".toList, true⟩ ⟨"\n0G".toList, true⟩
    (by decide!) (by decide!) (by decide) (by decide)

/-! ## Held key -/

theorem checkKeyPickup_keys_cases (map : Map) (pos : Vec3) (keys : Finset Char) :
    (checkKeyPickup map pos keys).2 = keys ∨
      (checkKeyPickup map pos keys).2 =
        insert (map.cell (gridIndex pos.z) (gridIndex pos.x)) keys := by
  unfold checkKeyPickup gridIndex
  simp only
  split_ifs
  · exact Or.inl rfl
  · exact Or.inr rfl
  · exact Or.inl rfl

theorem pickupStep_recent_mem (st : PickupState) (pos : Vec3)
    (h : ∀ r, st.recent = some r → r ∈ st.keys) :
    ∀ r, (pickupStep st pos).recent = some r → r ∈ (pickupStep st pos).keys := by
  intro r hr
  simp only [pickupStep] at hr ⊢
  split_ifs at hr with hsame
  · rw [hsame]
    exact h r hr
  · rcases checkKeyPickup_keys_cases st.map pos st.keys with hk | hk
    · exact absurd hk hsame
    · rw [hk]
      simp only [Option.some.injEq] at hr
      rw [← hr]
      exact Finset.mem_insert_self _ _

theorem foldl_pickupStep_recent_mem (positions : List Vec3) :
    ∀ st : PickupState, (∀ r, st.recent = some r → r ∈ st.keys) →
      ∀ r, (positions.foldl pickupStep st).recent = some r →
        r ∈ (positions.foldl pickupStep st).keys := by
  induction positions with
  | nil => intro st h; exact h
  | cons pos rest ih =>
    intro st h
    rw [List.foldl_cons]
    exact ih _ (pickupStep_recent_mem st pos h)

theorem lastKey_of_nonempty (keys : Finset Char) (h : keys.Nonempty) :
    lastKey keys = some (keys.max' h) := by
  simp [lastKey, h]

/-- C11 (as stated, refuted).  On the map `ba` the key `b` is picked up at `(0, 1, 0)`
and then the key `a` at `(2, 1, 0)`: the most recently collected key is `a`, the held
key the frame selects is `b`, shown in the colour of `b`.  The same inventory is
reached by the loop in two frames. -/
theorem lastKey_not_most_recent :
    (([⟨0, 1, 0⟩, ⟨2, 1, 0⟩] : List Vec3).foldl pickupStep ⟨keysMap, ∅, none⟩).recent
        = some 'a' ∧
      lastKey (([⟨0, 1, 0⟩, ⟨2, 1, 0⟩] : List Vec3).foldl pickupStep
        ⟨keysMap, ∅, none⟩).keys = some 'b' ∧
      (run axisGlm (facingX keysMap) [forwardFrame 0, forwardFrame (2 / 3)]).collectedKeys
        = (([⟨0, 1, 0⟩, ⟨2, 1, 0⟩] : List Vec3).foldl pickupStep ⟨keysMap, ∅, none⟩).keys ∧
      heldKeyColor (run axisGlm (facingX keysMap)
        [forwardFrame 0, forwardFrame (2 / 3)]).collectedKeys = some (getKeyColor 'b') ∧
      getKeyColor 'b' ≠ getKeyColor 'a' := by
  decide!

/-- C11 (amended).  After every sequence of key pickups that leaves the inventory
non-empty, the held key the frame selects (`lastKey`) is the greatest key of the
inventory in character order; the most recently collected key is in the inventory and
is at most the held key, and it is the held key exactly when no collected key is
greater than it. -/
theorem lastKey_greatest (map : Map) (keys : Finset Char) (positions : List Vec3)
    (hne : (positions.foldl pickupStep ⟨map, keys, none⟩).keys.Nonempty) :
    ∃ k, lastKey (positions.foldl pickupStep ⟨map, keys, none⟩).keys = some k ∧
      k ∈ (positions.foldl pickupStep ⟨map, keys, none⟩).keys ∧
      (∀ k' ∈ (positions.foldl pickupStep ⟨map, keys, none⟩).keys, k' ≤ k) ∧
      ∀ r, (positions.foldl pickupStep ⟨map, keys, none⟩).recent = some r →
        r ∈ (positions.foldl pickupStep ⟨map, keys, none⟩).keys ∧ r ≤ k ∧
          (k = r ↔ ∀ k' ∈ (positions.foldl pickupStep ⟨map, keys, none⟩).keys, k' ≤ r) := by
  have hrec := foldl_pickupStep_recent_mem positions ⟨map, keys, none⟩
    (by intro r hr; simp at hr)
  generalize positions.foldl pickupStep ⟨map, keys, none⟩ = st at hne hrec
  refine ⟨st.keys.max' hne, lastKey_of_nonempty _ hne, Finset.max'_mem _ hne,
    fun k' hk' => Finset.le_max' _ k' hk', ?_⟩
  intro r hr
  have hmem := hrec r hr
  refine ⟨hmem, Finset.le_max' _ r hmem, ?_⟩
  constructor
  · intro h k' hk'
    rw [← h]
    exact Finset.le_max' _ k' hk'
  · intro h
    exact le_antisymm (h _ (Finset.max'_mem _ hne)) (Finset.le_max' _ r hmem)

/-- C11 (amended), at a concrete input: on the map `ba` the key `a` is picked up first
and the key `b` second. -/
theorem lastKey_greatest_witness :
    ∃ k, lastKey (([⟨2, 1, 0⟩, ⟨0, 1, 0⟩] : List Vec3).foldl pickupStep
        ⟨keysMap, ∅, none⟩).keys = some k ∧
      k ∈ (([⟨2, 1, 0⟩, ⟨0, 1, 0⟩] : List Vec3).foldl pickupStep ⟨keysMap, ∅, none⟩).keys ∧
      (∀ k' ∈ (([⟨2, 1, 0⟩, ⟨0, 1, 0⟩] : List Vec3).foldl pickupStep
        ⟨keysMap, ∅, none⟩).keys, k' ≤ k) ∧
      ∀ r, (([⟨2, 1, 0⟩, ⟨0, 1, 0⟩] : List Vec3).foldl pickupStep
          ⟨keysMap, ∅, none⟩).recent = some r →
        r ∈ (([⟨2, 1, 0⟩, ⟨0, 1, 0⟩] : List Vec3).foldl pickupStep
          ⟨keysMap, ∅, none⟩).keys ∧ r ≤ k ∧
          (k = r ↔ ∀ k' ∈ (([⟨2, 1, 0⟩, ⟨0, 1, 0⟩] : List Vec3).foldl pickupStep
            ⟨keysMap, ∅, none⟩).keys, k' ≤ r) :=
  lastKey_greatest keysMap ∅ [⟨2, 1, 0⟩, ⟨0, 1, 0⟩] (by decide!)

/-! ## Mouse look -/

theorem handleEvent_pitch_down (L : Glm) (g : Game) (e : Event)
    (h0 : g.camera.pitch ≤ 0) (h1 : -89 ≤ g.camera.pitch) (he : 0 ≤ e.yrel) :
    (handleEvent L g e).camera.pitch = max (-89) (g.camera.pitch - (e.yrel : ℚ) / 10) := by
  cases e with
  | sdlQuit => simp [handleEvent, Event.yrel, h1]
  | escapeUp => simp [handleEvent, Event.yrel, h1]
  | ignored => simp [handleEvent, Event.yrel, h1]
  | mouseMotion xrel yrel =>
    have hy : (0 : ℚ) ≤ (yrel : ℚ) := by exact_mod_cast he
    have hle : ¬ (g.camera.pitch + -(yrel : ℚ) * (1 / 10) > 89) := by
      simp only [gt_iff_lt, not_lt]; linarith
    simp only [handleEvent, Camera.rotate, Camera.updateVectors, Event.yrel, hle, if_false]
    rw [max_def]
    split_ifs with ha hb hb
    · linarith
    · rfl
    · ring
    · linarith

theorem pollEvents_pitch_down (L : Glm) (events : List Event) :
    ∀ g : Game, g.camera.pitch ≤ 0 → -89 ≤ g.camera.pitch →
      (∀ e ∈ events, 0 ≤ e.yrel) →
      (pollEvents L g events).camera.pitch =
        max (-89) (g.camera.pitch - (((events.map Event.yrel).sum : Int) : ℚ) / 10) := by
  unfold pollEvents
  induction events with
  | nil => intro g _ h1 _; simp [h1]
  | cons e rest ih =>
    intro g h0 h1 hnn
    have he : 0 ≤ e.yrel := hnn e (List.mem_cons_self _ _)
    have hrest : ∀ e' ∈ rest, 0 ≤ e'.yrel := fun e' h => hnn e' (List.mem_cons_of_mem _ h)
    have hsum : (0 : ℚ) ≤ (((rest.map Event.yrel).sum : Int) : ℚ) := by
      have : 0 ≤ (rest.map Event.yrel).sum := by
        apply List.sum_nonneg
        intro y hy
        obtain ⟨e', he', rfl⟩ := List.mem_map.mp hy
        exact hrest e' he'
      exact_mod_cast this
    have hy : (0 : ℚ) ≤ (e.yrel : ℚ) := by exact_mod_cast he
    have hstep := handleEvent_pitch_down L g e h0 h1 he
    have hstep0 : (handleEvent L g e).camera.pitch ≤ 0 := by
      rw [hstep]; exact max_le (by norm_num) (by linarith)
    have hstep1 : -89 ≤ (handleEvent L g e).camera.pitch := by
      rw [hstep]; exact le_max_left _ _
    rw [List.foldl_cons, ih _ hstep0 hstep1 hrest, hstep, List.map_cons, List.sum_cons,
      Int.cast_add]
    generalize (((rest.map Event.yrel).sum : Int) : ℚ) = S at hsum
    generalize (e.yrel : ℚ) = y at hy
    generalize g.camera.pitch = p at h0 h1
    rcases le_total (-89) (p - y / 10) with h | h
    · rw [max_eq_right h]
      congr 1
      ring
    · have h2 : p - (y + S) / 10 ≤ -89 := by linarith
      have h3 : (-89 : ℚ) - S / 10 ≤ -89 := by linarith
      rw [max_eq_left h, max_eq_left h2, max_eq_left h3]

/-- C12 (as stated, refuted).  From the initial camera a single mouse motion with
`yrel = +10 000` leaves the pitch at −89, not +89: the handler passes `-yrel · 0.1` to
`rotate`. -/
theorem mouse_down_gives_minus_89 :
    (Game.start floorMap ⟨0, 1, 0⟩).camera.pitch = 0 ∧
      ([Event.mouseMotion 0 10000].map Event.yrel).sum = 10000 ∧
      (pollEvents axisGlm (Game.start floorMap ⟨0, 1, 0⟩)
        [Event.mouseMotion 0 10000]).camera.pitch = -89 ∧
      ((-89 : ℚ) ≠ 89) := by
  decide!

/-- The sum of the vertical deltas does not fix the pitch when their signs are mixed:
`+30 000` followed by `−20 000` also sums to `+10 000` and ends at +89. -/
theorem pitch_depends_on_order :
    ([Event.mouseMotion 0 30000, Event.mouseMotion 0 (-20000)].map Event.yrel).sum = 10000 ∧
      (pollEvents axisGlm (Game.start floorMap ⟨0, 1, 0⟩)
        [Event.mouseMotion 0 30000, Event.mouseMotion 0 (-20000)]).camera.pitch = 89 := by
  decide!

/-- C12 (amended).  From the initial camera (pitch 0), for every sequence of events
whose vertical deltas `yrel` are non-negative and sum to +10 000, processed by the
mouse handler at sensitivity 0.1, the resulting pitch is exactly −89. -/
theorem mouse_clamp (L : Glm) (map : Map) (startPos : Vec3) (events : List Event)
    (hnonneg : ∀ e ∈ events, 0 ≤ e.yrel)
    (hsum : (events.map Event.yrel).sum = 10000) :
    (pollEvents L (Game.start map startPos) events).camera.pitch = -89 := by
  rw [pollEvents_pitch_down L events (Game.start map startPos) (by simp [Game.start, Camera.ctor])
    (by simp [Game.start, Camera.ctor]) hnonneg, hsum]
  simp only [Game.start, Camera.ctor]
  norm_num

/-- C12 (amended), at a concrete input: the motions `+4 000` and `+6 000` with a key
release between them. -/
theorem mouse_clamp_witness :
    (pollEvents axisGlm (Game.start floorMap ⟨0, 1, 0⟩)
      [Event.mouseMotion 5 4000, Event.ignored, Event.mouseMotion (-3) 6000]).camera.pitch
      = -89 :=
  mouse_clamp axisGlm floorMap ⟨0, 1, 0⟩
    [Event.mouseMotion 5 4000, Event.ignored, Event.mouseMotion (-3) 6000]
    (by decide) (by decide)

end MazeGame
